import Mathlib

/-!
# Verification of the BIDV-custom-mail data core

A shallow embedding of the synthetic-data generator (`src/data/generator.py`),
the persisted CSV round-trip (`save_data` / `load_data`), and the analytics
engine (`src/bi/analysis.py`) of the repository, together with proofs of the
specified properties.

Modelling conventions:
* Python machine floats are modelled as `ℚ` (a rational shadow; all numeric
  values manipulated by the core are small decimals, sums and quotients).
* Python's process-global `random` module state and the seeded Faker source
  are modelled as explicit pseudo-random streams (`ℕ` states with an LCG
  step).  `random.seed` replaces the global state, so the generator receives
  the pre-call global state and discards it, exactly as the source does.
* `date.today()` is an ambient input of the program; it is modelled as an
  explicit field of the configuration record, and calendar dates are
  structures of year/month/day numbers with proleptic-Gregorian arithmetic
  for `date - timedelta(days=k)`.
* Fallible library primitives (`random.sample` on a too-small population,
  `random.randint` on an empty range, `random.choice` on an empty sequence,
  parse failures on reload) are modelled in `Except String`.
-/

set_option maxHeartbeats 1000000

namespace BIMail

/-! ## Decimal digits: serialization primitives shared by the CSV layer

`pandas.to_csv` stringifies every cell; `pandas.read_csv` re-parses it.
These primitives model the decimal textual forms involved and are proved
to round-trip.  -/

/-- The single-quote character, Python `repr`'s default string delimiter. -/
def squote : Char := Char.ofNat 39

/-- The character of a single decimal digit. -/
def digitChar (d : ℕ) : Char := Char.ofNat (48 + d % 10)

/-- Numeric value of a decimal digit character. -/
def charDigit (c : Char) : ℕ := c.toNat - 48

/-- Least-significant-first decimal digits of `n`, with explicit fuel. -/
def digsRev : ℕ → ℕ → List ℕ
  | 0, _ => []
  | fuel + 1, n => if n = 0 then [] else n % 10 :: digsRev fuel (n / 10)

/-- Decimal character representation of a natural number (Python `str(n)`). -/
def natToChars (n : ℕ) : List Char :=
  if n = 0 then ['0'] else ((digsRev n n).map digitChar).reverse

/-- `natToChars`, packaged as a `String`. -/
def natToString (n : ℕ) : String := String.mk (natToChars n)

/-- Parse a non-empty all-digit character list as a natural number
(the numeric part of pandas' `read_csv` type inference). -/
def parseNatChars (cs : List Char) : Option ℕ :=
  if cs ≠ [] ∧ cs.all (fun c => c.isDigit) = true then
    some (cs.foldl (fun a c => a * 10 + charDigit c) 0)
  else none

/-- Left-pad a character list with `'0'` up to width `w`
(Python's `%0wd` format; it never truncates). -/
def padZeros (w : ℕ) (cs : List Char) : List Char :=
  List.replicate (w - cs.length) '0' ++ cs

theorem digitChar_isDigit (d : ℕ) : (digitChar d).isDigit = true := by
  have h : d % 10 < 10 := Nat.mod_lt _ (by norm_num)
  unfold digitChar
  interval_cases h : d % 10 <;> simp_all

theorem charDigit_digitChar (d : ℕ) (h : d < 10) : charDigit (digitChar d) = d := by
  unfold digitChar charDigit
  interval_cases d <;> decide

theorem digsRev_all_lt (fuel n : ℕ) : ∀ d ∈ digsRev fuel n, d < 10 := by
  induction fuel generalizing n with
  | zero => simp [digsRev]
  | succ fuel ih =>
    intro d hd
    unfold digsRev at hd
    by_cases h0 : n = 0
    · simp [h0] at hd
    · simp [h0] at hd
      rcases hd with h | h
      · omega
      · exact ih _ _ h

theorem digsRev_foldr (fuel n : ℕ) (h : n ≤ fuel) :
    (digsRev fuel n).foldr (fun d a => a * 10 + d) 0 = n := by
  induction fuel generalizing n with
  | zero => simp [digsRev]; omega
  | succ fuel ih =>
    unfold digsRev
    by_cases h0 : n = 0
    · simp [h0]
    · simp only [h0, if_false, List.foldr_cons]
      have hdiv : n / 10 ≤ fuel := by omega
      rw [ih _ hdiv]
      omega

theorem natToChars_ne_nil (n : ℕ) : natToChars n ≠ [] := by
  unfold natToChars
  by_cases h0 : n = 0
  · simp [h0]
  · simp only [h0, if_false]
    intro hcon
    have h1 : digsRev n n ≠ [] := by
      unfold digsRev
      cases n with
      | zero => omega
      | succ m => simp
    simp at hcon
    exact h1 hcon

theorem natToChars_all_digits (n : ℕ) :
    (natToChars n).all (fun c => c.isDigit) = true := by
  unfold natToChars
  by_cases h0 : n = 0
  · simp [h0]
  · simp only [h0, if_false, List.all_eq_true]
    intro c hc
    rw [List.mem_reverse, List.mem_map] at hc
    obtain ⟨d, _, rfl⟩ := hc
    exact digitChar_isDigit d

theorem foldl_digits_map (ds : List ℕ) (hds : ∀ d ∈ ds, d < 10) :
    ((ds.map digitChar).reverse).foldl (fun a c => a * 10 + charDigit c) 0 =
      ds.foldr (fun d a => a * 10 + d) 0 := by
  rw [List.foldl_reverse, List.foldr_map]
  induction ds with
  | nil => rfl
  | cons d ds ih =>
    simp only [List.foldr_cons]
    rw [ih (fun x hx => hds x (List.mem_cons_of_mem _ hx))]
    rw [charDigit_digitChar d (hds d (List.mem_cons_self _ _))]

theorem parseNatChars_natToChars (n : ℕ) :
    parseNatChars (natToChars n) = some n := by
  unfold parseNatChars
  rw [if_pos ⟨natToChars_ne_nil n, natToChars_all_digits n⟩]
  congr 1
  by_cases h0 : n = 0
  · subst h0; decide
  · unfold natToChars
    simp only [h0, if_false]
    rw [foldl_digits_map _ (digsRev_all_lt n n)]
    exact digsRev_foldr n n (le_refl n)

theorem foldl_digits_zeros (k : ℕ) :
    (List.replicate k '0').foldl (fun a c => a * 10 + charDigit c) 0 = 0 := by
  induction k with
  | zero => rfl
  | succ k ih => simpa [List.replicate_succ, charDigit] using ih

theorem parseNatChars_padZeros (w n : ℕ) :
    parseNatChars (padZeros w (natToChars n)) = some n := by
  unfold parseNatChars padZeros
  have hne : List.replicate (w - (natToChars n).length) '0' ++ natToChars n ≠ [] := by
    simp [natToChars_ne_nil n]
  have hall : (List.replicate (w - (natToChars n).length) '0' ++ natToChars n).all
      (fun c => c.isDigit) = true := by
    rw [List.all_append, Bool.and_eq_true]
    refine ⟨?_, natToChars_all_digits n⟩
    rw [List.all_eq_true]
    intro c hc
    rw [List.eq_of_mem_replicate hc]
    decide
  rw [if_pos ⟨hne, hall⟩, List.foldl_append, foldl_digits_zeros]
  have := parseNatChars_natToChars n
  unfold parseNatChars at this
  rw [if_pos ⟨natToChars_ne_nil n, natToChars_all_digits n⟩] at this
  simpa using this

/-! ### Splitting helpers for the cell parsers -/

theorem takeWhile_append_stop {p : Char → Bool} (A : List Char) (c : Char)
    (B : List Char) (hA : ∀ a ∈ A, p a = true) (hc : p c = false) :
    (A ++ c :: B).takeWhile p = A ∧ (A ++ c :: B).dropWhile p = c :: B := by
  induction A with
  | nil => simp [List.takeWhile, List.dropWhile, hc]
  | cons a A ih =>
    have ha : p a = true := hA a (List.mem_cons_self _ _)
    have hrest := ih (fun x hx => hA x (List.mem_cons_of_mem _ hx))
    simp only [List.cons_append, List.takeWhile, List.dropWhile, ha]
    refine ⟨?_, hrest.2⟩
    show a :: List.takeWhile p (A ++ c :: B) = a :: A
    rw [hrest.1]

/-! ### Two-digit groups (cents, i.e. the fractional part of money cells) -/

/-- Exactly-two-digit representation of `c < 100` (the cents of an amount). -/
def twoDigits (c : ℕ) : List Char := [digitChar (c / 10 % 10), digitChar (c % 10)]

theorem twoDigits_all_digits (c : ℕ) :
    (twoDigits c).all (fun x => x.isDigit) = true := by
  simp [twoDigits, digitChar_isDigit]

theorem parseNatChars_twoDigits (c : ℕ) (h : c < 100) :
    parseNatChars (twoDigits c) = some c := by
  unfold parseNatChars
  rw [if_pos ⟨by simp [twoDigits], twoDigits_all_digits c⟩]
  simp only [twoDigits, List.foldl_cons, List.foldl_nil]
  rw [charDigit_digitChar _ (Nat.mod_lt _ (by norm_num)),
    charDigit_digitChar _ (Nat.mod_lt _ (by norm_num))]
  congr 1
  omega

/-! ### Integer and decimal cell parsing (pandas `read_csv` type inference) -/

/-- Parse a cell as a (possibly negative) integer. -/
def parseIntChars (cs : List Char) : Option ℤ :=
  match cs with
  | '-' :: rest => (parseNatChars rest).map (fun n => -(n : ℤ))
  | _ => (parseNatChars cs).map (fun n => (n : ℤ))

/-- Parse an unsigned decimal `digits.digits` character list as a rational. -/
def parseDecCharsNonneg (cs : List Char) : Option ℚ :=
  let A := cs.takeWhile (fun c => c.isDigit)
  match cs.dropWhile (fun c => c.isDigit) with
  | '.' :: B =>
    match parseNatChars A, parseNatChars B with
    | some a, some b => some ((a : ℚ) + (b : ℚ) / (10 : ℚ) ^ B.length)
    | _, _ => none
  | _ => none

/-- Parse a cell as a decimal number (float inference of `read_csv`). -/
def parseDecChars (cs : List Char) : Option ℚ :=
  match cs with
  | '-' :: rest => (parseDecCharsNonneg rest).map (fun q => -q)
  | _ => parseDecCharsNonneg cs

/-- Textual form of a nonnegative amount of `n` cents, `intpart.2-digit-cents`
(the model of how a 2-decimal float is persisted by `to_csv`). -/
def centsToChars (n : ℕ) : List Char :=
  natToChars (n / 100) ++ '.' :: twoDigits (n % 100)

/-- Serialize a rational as a decimal cell.  Exact for values with at most two
decimal places, which is every float the generator ever persists
(`round(x, 2)` amounts and the 0.5 default response rate). -/
def floatToChars (q : ℚ) : List Char :=
  if q < 0 then '-' :: centsToChars ⌊-(q * 100)⌋.toNat
  else centsToChars ⌊q * 100⌋.toNat

def floatToString (q : ℚ) : String := String.mk (floatToChars q)

theorem dot_not_digit : ('.' : Char).isDigit = false := by decide

theorem parseDecCharsNonneg_centsToChars (n : ℕ) :
    parseDecCharsNonneg (centsToChars n) = some ((n : ℚ) / 100) := by
  unfold parseDecCharsNonneg centsToChars
  have hsplit := takeWhile_append_stop (p := fun c => c.isDigit)
    (natToChars (n / 100)) '.' (twoDigits (n % 100))
    (fun a ha => by
      have := natToChars_all_digits (n / 100)
      rw [List.all_eq_true] at this
      exact this a ha)
    dot_not_digit
  rw [hsplit.2]
  simp only
  rw [hsplit.1, parseNatChars_natToChars, parseNatChars_twoDigits _ (Nat.mod_lt _ (by norm_num))]
  have hlen : (twoDigits (n % 100)).length = 2 := by simp [twoDigits]
  rw [hlen]
  have hn : n / 100 * 100 + n % 100 = n := by omega
  have h2 : ((10 : ℚ) ^ (2 : ℕ)) = 100 := by norm_num
  rw [h2]
  field_simp
  norm_cast

/-- Head character of a digit string is a digit. -/
theorem natToChars_head_digit (n : ℕ) :
    ∀ c ∈ natToChars n, c.isDigit = true := by
  have := natToChars_all_digits n
  rw [List.all_eq_true] at this
  exact this

theorem parseIntChars_not_dash (a : Char) (rest : List Char) (ha : a ≠ '-') :
    parseIntChars (a :: rest) = (parseNatChars (a :: rest)).map (fun n => (n : ℤ)) := by
  unfold parseIntChars
  split
  · rename_i heq
    injection heq with h1 _
    exact absurd h1 ha
  · rfl

theorem parseNatChars_none_of_bad_char (cs : List Char) (c : Char) (hc : c ∈ cs)
    (h : c.isDigit = false) : parseNatChars cs = none := by
  unfold parseNatChars
  rw [if_neg]
  intro ⟨_, hall⟩
  rw [List.all_eq_true] at hall
  rw [hall c hc] at h
  simp at h

theorem parseIntChars_centsToChars (n : ℕ) :
    parseIntChars (centsToChars n) = none := by
  have hne := natToChars_ne_nil (n / 100)
  have hdig := natToChars_head_digit (n / 100)
  cases hA : natToChars (n / 100) with
  | nil => exact absurd hA hne
  | cons a A =>
    have ha : a.isDigit = true := hdig a (hA ▸ List.mem_cons_self _ _)
    have hadash : a ≠ '-' := by
      intro hcon; subst hcon; simp at ha
    unfold centsToChars
    rw [hA, List.cons_append, parseIntChars_not_dash a _ hadash,
      parseNatChars_none_of_bad_char _ '.'
        (List.mem_cons_of_mem _ (by rw [List.mem_append]; right; exact List.mem_cons_self _ _))
        dot_not_digit]
    rfl

/-! ### Calendar dates

`datetime.date` values.  Serialization is the ISO `YYYY-MM-DD` form that
`str(date)` produces and `pd.to_datetime(...).dt.date` parses back. -/

structure Date where
  year : ℕ
  month : ℕ
  day : ℕ
deriving DecidableEq

/-- ISO text of a date (`str(date)` → `%04d-%02d-%02d`). -/
def dateToChars (d : Date) : List Char :=
  padZeros 4 (natToChars d.year) ++
    '-' :: (padZeros 2 (natToChars d.month) ++ '-' :: padZeros 2 (natToChars d.day))

def dateToString (d : Date) : String := String.mk (dateToChars d)

/-- Parse an ISO `YYYY-MM-DD` cell back into a date
(`pd.to_datetime(col).dt.date`); fails on malformed text. -/
def parseDateChars (cs : List Char) : Option Date :=
  let ys := cs.takeWhile (fun c => c.isDigit)
  match cs.dropWhile (fun c => c.isDigit) with
  | '-' :: r1 =>
    let ms := r1.takeWhile (fun c => c.isDigit)
    match r1.dropWhile (fun c => c.isDigit) with
    | '-' :: ds =>
      match parseNatChars ys, parseNatChars ms, parseNatChars ds with
      | some y, some m, some d => some ⟨y, m, d⟩
      | _, _, _ => none
    | _ => none
  | _ => none

theorem dash_not_digit : ('-' : Char).isDigit = false := by decide

theorem padZeros_natToChars_all_digits (w n : ℕ) :
    ∀ c ∈ padZeros w (natToChars n), c.isDigit = true := by
  intro c hc
  unfold padZeros at hc
  rw [List.mem_append] at hc
  rcases hc with hc | hc
  · rw [List.eq_of_mem_replicate hc]; decide
  · exact natToChars_head_digit n c hc

theorem parseDateChars_dateToChars (d : Date) :
    parseDateChars (dateToChars d) = some d := by
  unfold parseDateChars dateToChars
  have h1 := takeWhile_append_stop (p := fun c => c.isDigit)
    (padZeros 4 (natToChars d.year)) '-'
    (padZeros 2 (natToChars d.month) ++ '-' :: padZeros 2 (natToChars d.day))
    (padZeros_natToChars_all_digits 4 d.year) dash_not_digit
  rw [h1.2]
  simp only
  rw [h1.1]
  have h2 := takeWhile_append_stop (p := fun c => c.isDigit)
    (padZeros 2 (natToChars d.month)) '-' (padZeros 2 (natToChars d.day))
    (padZeros_natToChars_all_digits 2 d.month) dash_not_digit
  rw [h2.2]
  simp only
  rw [h2.1, parseNatChars_padZeros, parseNatChars_padZeros, parseNatChars_padZeros]

/-! ### Python `repr` of a string list and `ast.literal_eval`

`interests` is persisted as `str(list)` (e.g. `['fitness', "bob's gym"]`)
and reloaded with `ast.literal_eval`.  `repr` of one string picks single
quotes, switching to double quotes when the string holds a single quote
but no double quote; backslashes and the delimiter are backslash-escaped,
and tab/newline/return become `\t`/`\n`/`\r`.  Characters that Python
would escape numerically (`\x..`/`\u....`) are rendered literally here:
the embedding is faithful for strings without such control characters,
and the round-trip below holds with no condition on the elements. -/

/-- The double-quote character, Python `repr`'s alternative delimiter. -/
def dquote : Char := Char.ofNat 34

/-- The backslash, Python's escape character. -/
def bslash : Char := Char.ofNat 92

/-- `repr` escaping of a string body for delimiter `q`: backslashes and the
delimiter are backslash-escaped, tab/newline/return become `\t`/`\n`/`\r`. -/
def escChars (q : Char) : List Char → List Char
  | [] => []
  | c :: t =>
    if c = bslash then bslash :: bslash :: escChars q t
    else if c = q then bslash :: q :: escChars q t
    else if c = Char.ofNat 9 then bslash :: 't' :: escChars q t
    else if c = Char.ofNat 10 then bslash :: 'n' :: escChars q t
    else if c = Char.ofNat 13 then bslash :: 'r' :: escChars q t
    else c :: escChars q t

/-- The delimiter Python `repr` picks for a string: double quotes when the
string holds a single quote but no double quote, else single quotes. -/
def reprQuote (cs : List Char) : Char :=
  if squote ∈ cs ∧ dquote ∉ cs then dquote else squote

/-- Python `repr` of one string. -/
def reprStrChars (s : String) : List Char :=
  reprQuote s.data :: escChars (reprQuote s.data) s.data ++ [reprQuote s.data]

/-- The comma-space separated element renderings. -/
def listBodyChars : List String → List Char
  | [] => []
  | [x] => reprStrChars x
  | x :: y :: t => reprStrChars x ++ ',' :: ' ' :: listBodyChars (y :: t)

/-- Python `repr` of a list of strings. -/
def reprListChars (xs : List String) : List Char := '[' :: (listBodyChars xs ++ [']'])

def reprListString (xs : List String) : String := String.mk (reprListChars xs)

/-- Escape decoding: `\t`/`\n`/`\r` become the control character, any
other escaped character (backslash, either quote) stands for itself. -/
def unesc (e : Char) : Char :=
  if e = 't' then Char.ofNat 9
  else if e = 'n' then Char.ofNat 10
  else if e = 'r' then Char.ofNat 13 else e

/-- `literal_eval`'s reading of a quoted string body, one character at a
time with an escape flag: consumes characters up to the unescaped closing
delimiter `q`, undoing the escapes; returns the element text and what
follows the closing quote. -/
def readQAux (q : Char) (esc : Bool) : List Char → Option (List Char × List Char)
  | [] => none
  | c :: t =>
    if esc then (readQAux q false t).map (fun p => (unesc c :: p.1, p.2))
    else if c = q then some ([], t)
    else if c = bslash then readQAux q true t
    else (readQAux q false t).map (fun p => (c :: p.1, p.2))

def readQuoted (q : Char) (cs : List Char) : Option (List Char × List Char) :=
  readQAux q false cs

/-- Element loop of the `ast.literal_eval` model, with fuel. -/
def parseElemsChars : ℕ → List Char → Option (List String)
  | 0, _ => none
  | fuel + 1, cs =>
    match cs with
    | c :: rest =>
      if c = squote ∨ c = dquote then
        match readQuoted c rest with
        | none => none
        | some (body, r2) =>
          match r2 with
          | [']'] => some [String.mk body]
          | ',' :: ' ' :: r3 => (parseElemsChars fuel r3).map (fun l => String.mk body :: l)
          | _ => none
      else none
    | [] => none

def parseListChars (cs : List Char) : Option (List String) :=
  match cs with
  | '[' :: rest =>
    match rest with
    | [']'] => some []
    | _ => parseElemsChars rest.length rest
  | _ => none

theorem string_mk_data (s : String) : String.mk s.data = s := rfl

/-- Reading back an escaped body stops at the appended closing quote and
undoes the escapes. -/
theorem readQuoted_escChars (q : Char) (hq : q = squote ∨ q = dquote) :
    ∀ (cs tail : List Char),
      readQuoted q (escChars q cs ++ q :: tail) = some (cs, tail) := by
  have hqb : ¬ bslash = q := by
    rcases hq with rfl | rfl <;> decide
  have huq : unesc q = q := by
    rcases hq with rfl | rfl <;> decide
  have hub : unesc bslash = bslash := by decide
  have hut : unesc 't' = Char.ofNat 9 := by decide
  have hun : unesc 'n' = Char.ofNat 10 := by decide
  have hur : unesc 'r' = Char.ofNat 13 := by decide
  unfold readQuoted
  intro cs
  induction cs with
  | nil =>
    intro tail
    simp [escChars, readQAux]
  | cons c t ih =>
    intro tail
    by_cases hb : c = bslash
    · subst hb
      simp [escChars, readQAux, hqb, hub, ih]
    · by_cases hcq : c = q
      · subst hcq
        simp [escChars, readQAux, hb, hqb, huq, ih]
      · by_cases h9 : c = Char.ofNat 9
        · subst h9
          simp [escChars, readQAux, hb, hcq, hqb, hut, ih]
        · by_cases h10 : c = Char.ofNat 10
          · subst h10
            simp [escChars, readQAux, hb, hcq, h9, hqb, hun, ih]
          · by_cases h13 : c = Char.ofNat 13
            · subst h13
              simp [escChars, readQAux, hb, hcq, h9, h10, hqb, hur, ih]
            · simp [escChars, readQAux, hb, hcq, h9, h10, h13, ih]

theorem reprQuote_cases (cs : List Char) :
    reprQuote cs = squote ∨ reprQuote cs = dquote := by
  unfold reprQuote
  split
  · exact Or.inr rfl
  · exact Or.inl rfl

theorem reprStrChars_shape (x : String) :
    reprStrChars x =
      reprQuote x.data :: (escChars (reprQuote x.data) x.data ++ [reprQuote x.data]) := by
  unfold reprStrChars
  rfl

theorem parseElemsChars_listBody (xs : List String) :
    ∀ fuel : ℕ, xs ≠ [] →
    (listBodyChars xs ++ [']']).length ≤ fuel →
    parseElemsChars fuel (listBodyChars xs ++ [']']) = some xs := by
  induction xs with
  | nil => intro fuel h; exact absurd rfl h
  | cons x t ih =>
    intro fuel _ hfuel
    cases fuel with
    | zero =>
      exfalso
      have : 0 < (listBodyChars (x :: t) ++ [']']).length := by simp
      omega
    | succ fuel =>
      cases t with
      | nil =>
        show parseElemsChars (fuel + 1) (reprStrChars x ++ [']']) = _
        rw [reprStrChars_shape]
        have hshape : (reprQuote x.data ::
            (escChars (reprQuote x.data) x.data ++ [reprQuote x.data])) ++ [']'] =
            reprQuote x.data ::
              (escChars (reprQuote x.data) x.data ++ reprQuote x.data :: [']']) := by
          simp
        rw [hshape]
        simp only [parseElemsChars]
        rw [if_pos (reprQuote_cases x.data),
          readQuoted_escChars (reprQuote x.data) (reprQuote_cases x.data) x.data [']']]
        simp only [string_mk_data]
      | cons y t2 =>
        show parseElemsChars (fuel + 1)
          ((reprStrChars x ++ ',' :: ' ' :: listBodyChars (y :: t2)) ++ [']']) = _
        rw [reprStrChars_shape]
        have hshape : ((reprQuote x.data ::
            (escChars (reprQuote x.data) x.data ++ [reprQuote x.data])) ++
              ',' :: ' ' :: listBodyChars (y :: t2)) ++ [']'] =
            reprQuote x.data :: (escChars (reprQuote x.data) x.data ++
              reprQuote x.data :: ',' :: ' ' :: (listBodyChars (y :: t2) ++ [']'])) := by
          simp
        rw [hshape]
        simp only [parseElemsChars]
        rw [if_pos (reprQuote_cases x.data),
          readQuoted_escChars (reprQuote x.data) (reprQuote_cases x.data) x.data
            (',' :: ' ' :: (listBodyChars (y :: t2) ++ [']']))]
        simp only [string_mk_data]
        have hrec := ih fuel (by simp)
          (by
            have hx : listBodyChars (x :: y :: t2) =
                reprStrChars x ++ ',' :: ' ' :: listBodyChars (y :: t2) := rfl
            rw [hx] at hfuel
            simp only [List.length_append, List.length_cons] at hfuel ⊢
            omega)
        rw [hrec]
        rfl

/-- `ast.literal_eval` inverts `repr` on every string list: quote switching
and escape handling included, no condition on the elements. -/
theorem parseListChars_reprListChars (xs : List String) :
    parseListChars (reprListChars xs) = some xs := by
  unfold parseListChars reprListChars
  cases xs with
  | nil => rfl
  | cons x t =>
    have hne : listBodyChars (x :: t) ++ [']'] ≠ [']'] := by
      intro hcon
      have h2 : 0 < (listBodyChars (x :: t)).length := by
        cases t <;> simp [listBodyChars, reprStrChars]
      have hlen := congrArg List.length hcon
      rw [List.length_append] at hlen
      have h3 : (listBodyChars (x :: t)).length + 1 = 1 := by simpa using hlen
      omega
    have := parseElemsChars_listBody (x :: t) (listBodyChars (x :: t) ++ [']']).length
      (by simp) (le_refl _)
    cases hB : listBodyChars (x :: t) ++ [']'] with
    | nil => exact absurd hB (by simp)
    | cons b bs =>
      rw [hB] at this
      simp only
      split
      · rename_i heq
        exact absurd (hB ▸ heq) hne
      · exact this

/-- Quote handling, concretely: an element with a single quote is written
double-quoted, one with both quotes single-quoted with an escape, and both
round-trip. -/
theorem reprList_quote_switch :
    String.mk (reprListChars ["bob's", "a\"b'c"]) =
      "[\"bob's\", 'a\"b\\'c']" ∧
    parseListChars (reprListChars ["bob's", "a\"b'c"]) = some ["bob's", "a\"b'c"] :=
  ⟨by with_unfolding_all decide, by with_unfolding_all decide⟩

/-! ## Dataframe cell values

A dynamically-typed pandas cell, as it appears in the in-memory dataframes:
the generator's `model_dump` rows hold strings, dates, floats, ints, string
lists and `None`; a reloaded dataframe can additionally hold `NaN` (what
`read_csv` yields for an empty cell). -/

inductive PyVal where
  | vstr (s : String)
  | vint (z : ℤ)
  | vfloat (q : ℚ)
  | vnan
  | vnone
  | vlist (xs : List String)
  | vdate (d : Date)
deriving DecidableEq

/-- `to_csv` text of one cell (`str(value)`; `None`/`NaN` become empty). -/
def cellOf : PyVal → String
  | .vstr s => s
  | .vint z => if z < 0 then String.mk ('-' :: natToChars z.natAbs) else natToString z.natAbs
  | .vfloat q => floatToString q
  | .vnan => ""
  | .vnone => ""
  | .vlist xs => reprListString xs
  | .vdate d => dateToString d

/-- `read_csv` type inference for one cell: empty → NaN, integer text →
int64, decimal text → float64, anything else stays a string.  pandas
infers one dtype per column; on the columns this file reasons about every
cell of a column gets the same inference (all id/vocabulary cells are
`SafeCell` text, all amount cells decimal, all `lifetime_value` cells
empty), so the per-cell model agrees with the per-column behavior. -/
def parseCell (s : String) : PyVal :=
  match s.data with
  | [] => .vnan
  | cs =>
    match parseIntChars cs with
    | some z => .vint z
    | none =>
      match parseDecChars cs with
      | some q => .vfloat q
      | none => .vstr s

/-- A cell string that `read_csv` keeps as a plain string: non-empty and its
first character is neither a digit, nor a sign, nor a decimal point.  All
fixed vocabulary strings of the generator (ids, names, emails, segments,
categories, channels) satisfy this. -/
def SafeCell (s : String) : Prop :=
  match s.data with
  | [] => False
  | c :: _ => c.isDigit = false ∧ c ≠ '-' ∧ c ≠ '.'

instance (s : String) : Decidable (SafeCell s) := by
  unfold SafeCell
  cases s.data with
  | nil => exact inferInstanceAs (Decidable False)
  | cons c _ => exact inferInstanceAs (Decidable (_ ∧ _ ∧ _))

theorem parseNatChars_not_digit_head (c : Char) (rest : List Char)
    (hc : c.isDigit = false) : parseNatChars (c :: rest) = none :=
  parseNatChars_none_of_bad_char _ c (List.mem_cons_self _ _) hc

theorem parseDecCharsNonneg_not_digit_head (c : Char) (rest : List Char)
    (hc : c.isDigit = false) (hdot : c ≠ '.') :
    parseDecCharsNonneg (c :: rest) = none := by
  unfold parseDecCharsNonneg
  have hdrop : (c :: rest).dropWhile (fun x => x.isDigit) = c :: rest := by
    rw [List.dropWhile_cons_of_neg]
    simp [hc]
  rw [hdrop]
  simp only
  split
  · rename_i heq
    injection heq with h1 _
    exact absurd h1 hdot
  · rfl

theorem parseDecChars_not_digit_head (c : Char) (rest : List Char)
    (hc : c.isDigit = false) (hdash : c ≠ '-') (hdot : c ≠ '.') :
    parseDecChars (c :: rest) = none := by
  unfold parseDecChars
  split
  · rename_i heq
    injection heq with h1 _
    exact absurd h1 hdash
  · exact parseDecCharsNonneg_not_digit_head c rest hc hdot

theorem parseCell_eq (s : String) (c : Char) (rest : List Char) (hs : s.data = c :: rest) :
    parseCell s =
      (match parseIntChars (c :: rest) with
        | some z => PyVal.vint z
        | none =>
          match parseDecChars (c :: rest) with
          | some q => PyVal.vfloat q
          | none => PyVal.vstr s) := by
  unfold parseCell
  rw [hs]

theorem parseCell_safe (s : String) (h : SafeCell s) : parseCell s = .vstr s := by
  unfold SafeCell at h
  cases hs : s.data with
  | nil => rw [hs] at h; exact absurd h (by simp)
  | cons c rest =>
    rw [hs] at h
    obtain ⟨hc, hdash, hdot⟩ := h
    have hint : parseIntChars (c :: rest) = none := by
      rw [parseIntChars_not_dash c rest hdash, parseNatChars_not_digit_head c rest hc]
      rfl
    have hdec : parseDecChars (c :: rest) = none :=
      parseDecChars_not_digit_head c rest hc hdash hdot
    rw [parseCell_eq s c rest hs, hint, hdec]

/-- The money cell (2-decimal nonnegative rational) parses back to the same
rational as a float cell. -/
theorem parseCell_cents (n : ℕ) :
    parseCell (String.mk (centsToChars n)) = .vfloat ((n : ℚ) / 100) := by
  have hne : centsToChars n ≠ [] := by
    unfold centsToChars
    simp [natToChars_ne_nil]
  cases hcs : centsToChars n with
  | nil => exact absurd hcs hne
  | cons c rest =>
    have hdash : c ≠ '-' := by
      have hdig := natToChars_head_digit (n / 100)
      have hne2 := natToChars_ne_nil (n / 100)
      cases hA : natToChars (n / 100) with
      | nil => exact absurd hA hne2
      | cons a A =>
        have hca : c = a := by
          unfold centsToChars at hcs
          rw [hA] at hcs
          injection hcs with h1 _
          exact h1.symm
        subst hca
        intro hcon
        have := hdig c (hA ▸ List.mem_cons_self _ _)
        rw [hcon] at this
        simp at this
    have hint : parseIntChars (c :: rest) = none := by
      rw [← hcs, parseIntChars_centsToChars]
    have hdec : parseDecChars (c :: rest) = some ((n : ℚ) / 100) := by
      rw [← hcs]
      unfold parseDecChars
      cases hcc : centsToChars n with
      | nil => exact absurd hcc hne
      | cons c2 r2 =>
        have hc2 : c2 = c := by rw [hcs] at hcc; injection hcc with h1 _; exact h1.symm
        subst hc2
        split
        · rename_i heq
          injection heq with h1 _
          exact absurd h1 hdash
        · rw [← hcc, parseDecCharsNonneg_centsToChars]
    rw [parseCell_eq (String.mk (c :: rest)) c rest rfl, hint, hdec]

theorem parseCell_empty : parseCell "" = .vnan := rfl

/-! ## Pseudo-random source

Python's `random` module keeps one process-global Mersenne-Twister state;
`random.seed(n)` replaces it, and every primitive draw advances it.  The
embedding models the state as a `ℕ` advanced by an LCG step -- the claims
under verification depend only on the draw ORDER and the ranges of the
primitives, never on the concrete stream values. -/

def rngStep (s : ℕ) : ℕ := (s * 1103515245 + 12345) % 2147483648

/-- One raw draw: the produced value and the advanced state. -/
def randNat (s : ℕ) : ℕ × ℕ := (rngStep s, rngStep s)

/-- `random.seed(n)`: the global state is replaced by a function of the seed
alone. -/
def mkRandomState (seed : ℕ) : ℕ := rngStep seed

/-- `random.randint(a, b)`: uniform integer in `[a, b]`; raises `ValueError`
on an empty range (`b < a`). -/
def randintE (a b : ℕ) (s : ℕ) : Except String (ℕ × ℕ) :=
  if b < a then .error "randint: empty range"
  else
    let (v, s2) := randNat s
    .ok (a + v % (b - a + 1), s2)

/-- `random.uniform(a, b)`: `a + (b-a) * random()` with `random() ∈ [0,1)`. -/
def randUniform (a b : ℚ) (s : ℕ) : ℚ × ℕ :=
  let (v, s2) := randNat s
  (a + (b - a) * (((v % 1048576 : ℕ) : ℚ) / 1048576), s2)

/-- `random.choice(seq)`: uniform element; raises `IndexError` when empty. -/
def choiceE (l : List String) (s : ℕ) : Except String (String × ℕ) :=
  if l.isEmpty then .error "choice: empty sequence"
  else
    let (v, s2) := randNat s
    .ok (l.getD (v % l.length) "", s2)

/-- Selection loop of `random.sample`: repeatedly pick a position of the
remaining population, preserving selection order. -/
def sampleAux : ℕ → List String → ℕ → List String × ℕ
  | 0, _, s => ([], s)
  | k + 1, pool, s =>
    let (v, s2) := randNat s
    let i := v % pool.length
    let x := pool.getD i ""
    let (rest, s3) := sampleAux k (pool.eraseIdx i) s2
    (x :: rest, s3)

/-- `random.sample(pool, k)`: `k` distinct elements in selection order;
raises `ValueError` when `k` exceeds the population size. -/
def sampleE (pool : List String) (k : ℕ) (s : ℕ) : Except String (List String × ℕ) :=
  if pool.length < k then .error "Sample larger than population or is negative"
  else .ok (sampleAux k pool s)

/-! ### Faker

Modelled from the Faker library's documented behavior: `Faker.seed(n)`
deterministically resets its internal generator and `fake.name()` /
`fake.email()` consume it in call order.  No claim depends on the concrete
strings, only on their CSV-safe shape, so the model produces tagged
deterministic strings. -/

def fakerStep (s : ℕ) : ℕ := (s * 22695477 + 1) % 2147483648

def mkFakerState (seed : ℕ) : ℕ := fakerStep (seed + 1)

def fakeName (s : ℕ) : String × ℕ :=
  ("Name " ++ natToString (fakerStep s % 100000), fakerStep s)

def fakeEmail (s : ℕ) : String × ℕ :=
  ("user" ++ natToString (fakerStep s % 100000) ++ "@example.com", fakerStep s)

/-! ## Calendar arithmetic

`date.today() - timedelta(days=k)` over the proleptic Gregorian calendar
(`datetime`'s documented model), via the standard civil-from-days /
days-from-civil conversions. -/

/-- Days since 1970-01-01 of a civil date. -/
def daysFromCivil (dt : Date) : ℤ :=
  let y : ℤ := (dt.year : ℤ) - (if dt.month ≤ 2 then 1 else 0)
  let era : ℤ := (if 0 ≤ y then y else y - 399) / 400
  let yoe : ℤ := y - era * 400
  let mp : ℤ := ((dt.month : ℤ) + 9) % 12
  let doy : ℤ := (153 * mp + 2) / 5 + (dt.day : ℤ) - 1
  let doe : ℤ := yoe * 365 + yoe / 4 - yoe / 100 + doy
  era * 146097 + doe - 719468

/-- Civil date of a days-since-1970-01-01 count. -/
def civilFromDays (z : ℤ) : Date :=
  let z2 : ℤ := z + 719468
  let era : ℤ := (if 0 ≤ z2 then z2 else z2 - 146096) / 146097
  let doe : ℤ := z2 - era * 146097
  let yoe : ℤ := (doe - doe / 1460 + doe / 36524 - doe / 146096) / 365
  let y : ℤ := yoe + era * 400
  let doy : ℤ := doe - (365 * yoe + yoe / 4 - yoe / 100)
  let mp : ℤ := (5 * doy + 2) / 153
  let d : ℤ := doy - (153 * mp + 2) / 5 + 1
  let m : ℤ := mp + (if mp < 10 then 3 else -9)
  { year := (y + (if m ≤ 2 then 1 else 0)).toNat, month := m.toNat, day := d.toNat }

/-- `some_date - timedelta(days=k)`. -/
def subDays (dt : Date) (k : ℕ) : Date := civilFromDays (daysFromCivil dt - k)

/-! ## Data model (src/data/schema.py)

`Customer` and `Order` records, including the pydantic defaults the
generator never overrides (`engagement_score=50`,
`preferred_contact_time="morning"`, `pain_points=[]`,
`buying_behavior="researcher"`, `response_rate=0.5`,
`lifetime_value=None`). -/

structure Customer where
  customer_id : String
  name : String
  email : String
  segment : String
  interests : List String
  last_contact_date : Date
  created_at : Date
  engagement_score : ℕ
  preferred_contact_time : String
  pain_points : List String
  buying_behavior : String
  response_rate : ℚ
  lifetime_value : Option ℚ
deriving DecidableEq

structure Order where
  order_id : String
  customer_id : String
  order_date : Date
  amount : ℚ
  product_category : String
  channel : String
deriving DecidableEq

/-- Modelled from the spec: the configuration bundle of section 4.1 (the
repository's `config.py` module is not part of the source tree; the
generator reads `config.RANDOM_SEED`, `config.NUM_CUSTOMERS`,
`config.SEGMENT_DISTRIBUTION`, `config.ORDERS_PER_CUSTOMER_MIN/MAX`,
`config.INTEREST_POOL`, `config.PRODUCT_CATEGORIES`,
`config.ORDER_CHANNELS` and `config.DATA_DAYS_BACK` from it).  The ambient
clock `date.today()` is made an explicit field so that one run is a pure
function of this record. -/
structure Config where
  numCustomers : ℕ
  segmentDistribution : List (String × ℚ)
  ordersPerCustomerMin : ℕ
  ordersPerCustomerMax : ℕ
  interestPool : List String
  productCategories : List String
  orderChannels : List String
  dataDaysBack : ℕ
  randomSeed : ℕ
  today : Date

/-! ## The generator (src/data/generator.py, generate_synthetic_data) -/

/-- Python `int()` on a float: truncation toward zero. -/
def intTrunc (q : ℚ) : ℤ := if 0 ≤ q then ⌊q⌋ else ⌈q⌉

/-- Python's banker's rounding (`round` ties to even) at integer scale. -/
def roundHalfEvenZ (x : ℚ) : ℤ :=
  if x - (⌊x⌋ : ℚ) < 1 / 2 then ⌊x⌋
  else if 1 / 2 < x - (⌊x⌋ : ℚ) then ⌊x⌋ + 1
  else if Even ⌊x⌋ then ⌊x⌋ else ⌊x⌋ + 1

/-- `round(x, 2)`. -/
def round2 (q : ℚ) : ℚ := (roundHalfEvenZ (q * 100) : ℚ) / 100

/-- `f"CUST{k:04d}"`. -/
def custIdString (k : ℕ) : String := "CUST" ++ String.mk (padZeros 4 (natToChars k))

/-- `f"ORD{k:08d}"`. -/
def orderIdString (k : ℕ) : String := "ORD" ++ String.mk (padZeros 8 (natToChars k))

/-- `segment_counts`: truncate `NUM_CUSTOMERS * dist` per segment, in dict
iteration order. -/
def rawSegmentCounts (cfg : Config) : List (String × ℤ) :=
  cfg.segmentDistribution.map (fun p => (p.1, intTrunc ((cfg.numCustomers : ℚ) * p.2)))

/-- `segment_counts["returning"] += diff` on the association list (dict
keys are unique, so the first hit is the dict entry). -/
def addToFirst : List (String × ℤ) → String → ℤ → List (String × ℤ)
  | [], _, _ => []
  | (k, v) :: rest, key, d =>
    if k = key then (k, v + d) :: rest else (k, v) :: addToFirst rest key d

/-- The rounding-remainder adjustment; a missing `"returning"` key would be
a `KeyError` in the source. -/
def adjustedCounts (cfg : Config) : Except String (List (String × ℤ)) :=
  if 0 < (cfg.numCustomers : ℤ) - ((rawSegmentCounts cfg).map Prod.snd).sum then
    if "returning" ∈ (rawSegmentCounts cfg).map Prod.fst then
      .ok (addToFirst (rawSegmentCounts cfg) "returning"
        ((cfg.numCustomers : ℤ) - ((rawSegmentCounts cfg).map Prod.snd).sum))
    else .error "KeyError: returning"
  else .ok (rawSegmentCounts cfg)

/-- The segment-specific amount band. -/
def amountDraw (segment : String) (rs : ℕ) : ℚ × ℕ :=
  if segment = "vip" then randUniform 5000 20000 rs
  else if segment = "returning" then randUniform 2000 8000 rs
  else if segment = "new" then randUniform 500 3000 rs
  else randUniform 300 2000 rs

/-- The inner `for _ in range(num_orders)` loop: one argument per draw in
source order (days back, amount, category, channel), threading the global
order counter and the random state. -/
def genOrders (cfg : Config) (segment custIdStr : String) (interests : List String) :
    ℕ → ℕ → ℕ → Except String (List Order × ℕ × ℕ)
  | 0, ctr, rs => .ok ([], ctr, rs)
  | n + 1, ctr, rs =>
    match randintE 0 cfg.dataDaysBack rs with
    | .error e => .error e
    | .ok dr =>
      match (if interests.isEmpty then choiceE cfg.productCategories (amountDraw segment dr.2).2
             else choiceE interests (amountDraw segment dr.2).2) with
      | .error e => .error e
      | .ok cp =>
        match choiceE cfg.orderChannels cp.2 with
        | .error e => .error e
        | .ok hp =>
          match genOrders cfg segment custIdStr interests n (ctr + 1) hp.2 with
          | .error e => .error e
          | .ok rest =>
            .ok ({ order_id := orderIdString ctr, customer_id := custIdStr,
                   order_date := subDays cfg.today dr.1,
                   amount := round2 (amountDraw segment dr.2).1,
                   product_category := cp.1, channel := hp.1 } :: rest.1,
                 rest.2.1, rest.2.2)

/-- One customer plus its orders (the body of the `for _ in range(count)`
loop), draws in source order. -/
def genCustomer (cfg : Config) (segment : String) (cid ctr : ℕ) (rs fs : ℕ) :
    Except String (Customer × List Order × ℕ × ℕ × ℕ) :=
  match randintE 90 365 rs with
  | .error e => .error e
  | .ok cr =>
    match randintE 0 30 cr.2 with
    | .error e => .error e
    | .ok lr =>
      match randintE 2 4 lr.2 with
      | .error e => .error e
      | .ok ir =>
        match sampleE cfg.interestPool ir.1 ir.2 with
        | .error e => .error e
        | .ok sp =>
          match randintE cfg.ordersPerCustomerMin cfg.ordersPerCustomerMax sp.2 with
          | .error e => .error e
          | .ok nr =>
            match genOrders cfg segment (custIdString cid) sp.1 nr.1 ctr nr.2 with
            | .error e => .error e
            | .ok ro =>
              .ok ({ customer_id := custIdString cid, name := (fakeName fs).1,
                     email := (fakeEmail (fakeName fs).2).1, segment := segment,
                     interests := sp.1,
                     last_contact_date := subDays cfg.today lr.1,
                     created_at := subDays cfg.today cr.1,
                     engagement_score := 50, preferred_contact_time := "morning",
                     pain_points := [], buying_behavior := "researcher",
                     response_rate := 1 / 2, lifetime_value := none },
                   ro.1, ro.2.1, ro.2.2, (fakeEmail (fakeName fs).2).2)

/-- `for _ in range(count)` over one segment, threading the global customer
and order counters. -/
def genSegment (cfg : Config) (segment : String) (n cid ctr rs fs : ℕ) :
    Except String (List Customer × List Order × ℕ × ℕ × ℕ × ℕ) :=
  match n with
  | 0 => .ok ([], [], cid, ctr, rs, fs)
  | m + 1 =>
    match genCustomer cfg segment cid ctr rs fs with
    | .error e => .error e
    | .ok r =>
      match genSegment cfg segment m (cid + 1) r.2.2.1 r.2.2.2.1 r.2.2.2.2 with
      | .error e => .error e
      | .ok r2 =>
        .ok (r.1 :: r2.1, r.2.1 ++ r2.2.1, r2.2.2)

/-- `for segment, count in segment_counts.items()`. -/
def genSegments (cfg : Config) (counts : List (String × ℤ)) (cid ctr rs fs : ℕ) :
    Except String (List Customer × List Order × ℕ × ℕ × ℕ × ℕ) :=
  match counts with
  | [] => .ok ([], [], cid, ctr, rs, fs)
  | sc :: rest =>
    match genSegment cfg sc.1 sc.2.toNat cid ctr rs fs with
    | .error e => .error e
    | .ok r =>
      match genSegments cfg rest r.2.2.1 r.2.2.2.1 r.2.2.2.2.1 r.2.2.2.2.2 with
      | .error e => .error e
      | .ok r2 =>
        .ok (r.1 ++ r2.1, r.2.1 ++ r2.2.1, r2.2.2)

/-- `generate_synthetic_data()`.  `g` is the process-global random state
(random module, Faker) as it stands before the call; the function reseeds
both from `config.RANDOM_SEED` first, exactly as the source does, so `g`
is discarded. -/
def generate_synthetic_data (cfg : Config) (_g : ℕ × ℕ) :
    Except String (List Customer × List Order) :=
  match adjustedCounts cfg with
  | .error e => .error e
  | .ok counts =>
    match genSegments cfg counts 1 1 (mkRandomState cfg.randomSeed)
        (mkFakerState cfg.randomSeed) with
    | .error e => .error e
    | .ok r => .ok (r.1, r.2.1)

/-! ## Analytics engine (src/bi/analysis.py)

The analytics functions receive dynamically-typed dataframes; they read the
columns modelled below.  `order_date` is an epoch-day integer (the value of
the datetime64 column at day resolution; subtracting two of them is
`(a - b).days`). -/

structure OrderRow where
  order_id : String
  customer_id : String
  order_date : ℤ
  amount : ℚ
  product_category : String
  channel : String
deriving DecidableEq

structure CustomerRow where
  customer_id : String
  name : String
  segment : String
deriving DecidableEq

structure Kpis where
  total_spend : ℚ
  orders_count : ℕ
  average_order_value : ℚ
  order_frequency : ℚ
  top_category : String
  days_active : ℤ
deriving DecidableEq

/-- `series.max()` of a column. -/
def listMaxZ : List ℤ → ℤ
  | [] => 0
  | x :: xs => xs.foldl max x

/-- `series.min()` of a column. -/
def listMinZ : List ℤ → ℤ
  | [] => 0
  | x :: xs => xs.foldl min x

/-- Sorted-unique insertion of a key (`groupby` sorts group keys
ascending). -/
def insertKey (s : String) : List String → List String
  | [] => [s]
  | k :: rest =>
    if s < k then s :: k :: rest else if s = k then k :: rest else k :: insertKey s rest

/-- Ascending duplicate-free group keys of the `product_category` column. -/
def sortedKeys (rows : List OrderRow) : List String :=
  rows.foldr (fun r acc => insertKey r.product_category acc) []

/-- `groupby('product_category')['amount'].sum()`: ascending keys paired
with their summed amounts. -/
def categorySpend (rows : List OrderRow) : List (String × ℚ) :=
  (sortedKeys rows).map (fun k =>
    (k, ((rows.filter (fun r => r.product_category == k)).map (fun r => r.amount)).sum))

/-- `series.idxmax()`: the first key attaining the maximal value. -/
def firstMaxPair : List (String × ℚ) → String
  | [] => "N/A"
  | p :: ps => (ps.foldl (fun b q => if b.2 < q.2 then q else b) p).1

/-- The body of `calculate_customer_kpis` after the customer filter.  The
`'order_date' in columns` guard of the source is always true for the typed
order rows modelled here, so only that branch is embedded. -/
def kpisFromFiltered (customerOrders : List OrderRow) : Kpis :=
  if customerOrders.length = 0 then
    { total_spend := 0, orders_count := 0, average_order_value := 0,
      order_frequency := 0, top_category := "N/A", days_active := 0 }
  else
    { total_spend := (customerOrders.map (fun r => r.amount)).sum,
      orders_count := customerOrders.length,
      average_order_value :=
        if 0 < customerOrders.length then
          (customerOrders.map (fun r => r.amount)).sum / (customerOrders.length : ℚ)
        else 0,
      order_frequency :=
        if 0 < ((listMaxZ (customerOrders.map (fun r => r.order_date)) -
            listMinZ (customerOrders.map (fun r => r.order_date)) + 1 : ℤ) : ℚ) / 30 then
          (customerOrders.length : ℚ) /
            (((listMaxZ (customerOrders.map (fun r => r.order_date)) -
              listMinZ (customerOrders.map (fun r => r.order_date)) + 1 : ℤ) : ℚ) / 30)
        else (customerOrders.length : ℚ),
      top_category := firstMaxPair (categorySpend customerOrders),
      days_active := listMaxZ (customerOrders.map (fun r => r.order_date)) -
        listMinZ (customerOrders.map (fun r => r.order_date)) + 1 }

/-- `calculate_customer_kpis(customer_id, customers_df, orders_df)` (the
customers frame is received but never read by the source body). -/
def calculate_customer_kpis (customer_id : String) (_customers : List CustomerRow)
    (orders : List OrderRow) : Kpis :=
  kpisFromFiltered (orders.filter (fun r => r.customer_id == customer_id))

/-- `get_customer_profile`. -/
def get_customer_profile (customer_id : String) (customers : List CustomerRow) :
    Option CustomerRow :=
  (customers.filter (fun r => r.customer_id == customer_id)).head?

/-- Stable insertion of an order into a date-sorted list.  NOTE: the source
calls `sort_values('order_date')` with the pandas default sort kind
(`quicksort`), which numpy does not document as stable; this executable
model has to pick a concrete permutation and uses a stable insertion sort,
but no theorem in this file relies on the tie order it induces. -/
def insertByDate (r : OrderRow) : List OrderRow → List OrderRow
  | [] => [r]
  | x :: xs => if r.order_date ≤ x.order_date then r :: x :: xs else x :: insertByDate r xs

def sortByDate (l : List OrderRow) : List OrderRow := l.foldr insertByDate []

/-- `amount.cumsum()` paired with the dates. -/
def cumAux (acc : ℚ) : List OrderRow → List (ℤ × ℚ)
  | [] => []
  | r :: rest => (r.order_date, acc + r.amount) :: cumAux (acc + r.amount) rest

/-- `get_recent_trend(customer_id, orders_df, days)`; `todayZ` is
`date.today()` as an epoch day. -/
def get_recent_trend (customer_id : String) (todayZ : ℤ) (days : ℕ)
    (orders : List OrderRow) : List (ℤ × ℚ) :=
  let customerOrders := orders.filter (fun r => r.customer_id == customer_id)
  if customerOrders.length = 0 then []
  else
    let recent := customerOrders.filter (fun r => todayZ - (days : ℤ) ≤ r.order_date)
    if recent.length = 0 then []
    else cumAux 0 (sortByDate recent)

/-- Descending stable insertion by the rational value. -/
def insertDescQ (p : String × ℚ) : List (String × ℚ) → List (String × ℚ)
  | [] => [p]
  | x :: xs => if x.2 < p.2 then p :: x :: xs else x :: insertDescQ p xs

def sortDescQ (l : List (String × ℚ)) : List (String × ℚ) := l.foldr insertDescQ []

/-- `get_category_distribution`. -/
def get_category_distribution (customer_id : String) (orders : List OrderRow) :
    List (String × ℚ) :=
  let customerOrders := orders.filter (fun r => r.customer_id == customer_id)
  if customerOrders.length = 0 then []
  else sortDescQ (categorySpend customerOrders)

/-- Descending stable insertion by a count. -/
def insertDescN (p : String × ℕ) : List (String × ℕ) → List (String × ℕ)
  | [] => [p]
  | x :: xs => if x.2 < p.2 then p :: x :: xs else x :: insertDescN p xs

def sortDescN (l : List (String × ℕ)) : List (String × ℕ) := l.foldr insertDescN []

/-- `series.value_counts()`: per-key counts, sorted descending by count. -/
def valueCounts (keys : List String) : List (String × ℕ) :=
  sortDescN ((keys.foldl (fun acc k => if k ∈ acc then acc else acc ++ [k]) []).map
    (fun k => (k, (keys.filter (fun x => x == k)).length)))

/-- `get_overall_segment_distribution`. -/
def get_overall_segment_distribution (customers : List CustomerRow) :
    List (String × ℕ) :=
  valueCounts (customers.map (fun r => r.segment))

/-- `get_overall_category_share`. -/
def get_overall_category_share (orders : List OrderRow) : List (String × ℚ) :=
  sortDescQ (categorySpend orders)

/-- `resample(freq).sum()` modelled as fixed-width day buckets covering the
data span, gap-filled (`freqDays` days per bucket; the weekly/monthly
anchoring details of pandas are abstracted -- no claim depends on them). -/
def get_revenue_over_time (freqDays : ℕ) (orders : List OrderRow) : List (ℤ × ℚ) :=
  match orders with
  | [] => []
  | _ =>
    if freqDays = 0 then []
    else
      let f : ℤ := (freqDays : ℤ)
      let dates := orders.map (fun r => r.order_date)
      let bmin := Int.fdiv (listMinZ dates) f
      let bmax := Int.fdiv (listMaxZ dates) f
      (List.range ((bmax - bmin + 1).toNat)).map (fun i =>
        let b := bmin + (i : ℤ)
        (b * f,
          ((orders.filter (fun r => Int.fdiv r.order_date f = b)).map
            (fun r => r.amount)).sum))

/-! ## Object-level frame store

Python dataframes are heap objects; "must not mutate their input
collections" is a statement about which objects a call writes.  The store
is the list of live frames; boolean-mask filtering, `.copy()`,
`sort_values`, `set_index` and `pd.DataFrame(...)` allocate fresh frames
(appended at the end), while column assignment (`df[col] = ...`,
`df.columns = ...`) writes a frame in place (`List.set`).  Each analytics
function is embedded once more at this level, performing exactly the
allocations and in-place writes of its source statements (intermediate
`Series` allocations are coalesced into their consuming frame); its result
value is computed by the pure embedding above. -/

inductive DFrame where
  | ords (rows : List OrderRow)
  | custs (rows : List CustomerRow)
  | tblQ (rows : List (String × ℚ))
  | tblN (rows : List (String × ℕ))
  | tblT (rows : List (ℤ × ℚ))
deriving DecidableEq

def Store := List DFrame

def rowsO : DFrame → List OrderRow
  | .ords r => r
  | _ => []

def rowsC : DFrame → List CustomerRow
  | .custs r => r
  | _ => []

/-- `calculate_customer_kpis` at store level: mask-filter (fresh),
`.copy()` (fresh), `to_datetime` column assignment (writes the copy). -/
def calculate_customer_kpis_df (customer_id : String) (ci oi : ℕ) (σ : List DFrame) :
    Kpis × List DFrame :=
  let _ := ci
  let ors := rowsO (σ.getD oi (.ords []))
  let filtered := ors.filter (fun r => r.customer_id == customer_id)
  let σ1 := σ ++ [DFrame.ords filtered]
  let copyIdx := σ1.length
  let σ2 := σ1 ++ [DFrame.ords filtered]
  let σ3 := σ2.set copyIdx (DFrame.ords (rowsO (σ2.getD copyIdx (.ords []))))
  let rows := rowsO (σ3.getD copyIdx (.ords []))
  (kpisFromFiltered rows, σ3)

/-- `get_customer_profile` at store level: mask-filter allocates, nothing
is written. -/
def get_customer_profile_df (customer_id : String) (ci : ℕ) (σ : List DFrame) :
    Option CustomerRow × List DFrame :=
  let cs := rowsC (σ.getD ci (.custs []))
  let filtered := cs.filter (fun r => r.customer_id == customer_id)
  let σ1 := σ ++ [DFrame.custs filtered]
  ((filtered.head?), σ1)

/-- `get_recent_trend` at store level. -/
def get_recent_trend_df (customer_id : String) (todayZ : ℤ) (days : ℕ) (oi : ℕ)
    (σ : List DFrame) : List (ℤ × ℚ) × List DFrame :=
  let ors := rowsO (σ.getD oi (.ords []))
  let filtered := ors.filter (fun r => r.customer_id == customer_id)
  let σ1 := σ ++ [DFrame.ords filtered]
  let copyIdx := σ1.length
  let σ2 := σ1 ++ [DFrame.ords filtered]
  if filtered.length = 0 then ([], σ2)
  else
    let σ3 := σ2.set copyIdx (DFrame.ords (rowsO (σ2.getD copyIdx (.ords []))))
    let rows := rowsO (σ3.getD copyIdx (.ords []))
    let recent := rows.filter (fun r => todayZ - (days : ℤ) ≤ r.order_date)
    let σ4 := σ3 ++ [DFrame.ords recent]
    if recent.length = 0 then ([], σ4)
    else
      let sorted := sortByDate recent
      let sortIdx := σ4.length
      let σ5 := σ4 ++ [DFrame.ords sorted]
      let σ6 := σ5.set sortIdx (DFrame.ords (rowsO (σ5.getD sortIdx (.ords []))))
      let trend := cumAux 0 sorted
      let σ7 := σ6 ++ [DFrame.tblT trend]
      let copy2 := σ7.length
      let σ8 := σ7 ++ [DFrame.tblT trend]
      let σ9 := σ8.set copy2 (DFrame.tblT trend)
      (trend, σ9)

/-- `get_category_distribution` at store level: mask-filter allocates, the
grouped/sorted result frame allocates, nothing is written. -/
def get_category_distribution_df (customer_id : String) (oi : ℕ) (σ : List DFrame) :
    List (String × ℚ) × List DFrame :=
  let ors := rowsO (σ.getD oi (.ords []))
  let filtered := ors.filter (fun r => r.customer_id == customer_id)
  let σ1 := σ ++ [DFrame.ords filtered]
  if filtered.length = 0 then ([], σ1)
  else
    let dist := sortDescQ (categorySpend filtered)
    let σ2 := σ1 ++ [DFrame.tblQ dist]
    (dist, σ2)

/-- `get_overall_segment_distribution` at store level. -/
def get_overall_segment_distribution_df (ci : ℕ) (σ : List DFrame) :
    List (String × ℕ) × List DFrame :=
  let cs := rowsC (σ.getD ci (.custs []))
  let dist := valueCounts (cs.map (fun r => r.segment))
  let σ1 := σ ++ [DFrame.tblN dist]
  (dist, σ1)

/-- `get_overall_category_share` at store level. -/
def get_overall_category_share_df (oi : ℕ) (σ : List DFrame) :
    List (String × ℚ) × List DFrame :=
  let ors := rowsO (σ.getD oi (.ords []))
  let dist := sortDescQ (categorySpend ors)
  let σ1 := σ ++ [DFrame.tblQ dist]
  (dist, σ1)

/-- `get_revenue_over_time` at store level: `.copy()` (fresh),
`to_datetime` assignment (writes the copy), `set_index` (fresh), result
frame (fresh). -/
def get_revenue_over_time_df (freqDays : ℕ) (oi : ℕ) (σ : List DFrame) :
    List (ℤ × ℚ) × List DFrame :=
  let ors := rowsO (σ.getD oi (.ords []))
  let copyIdx := σ.length
  let σ1 := σ ++ [DFrame.ords ors]
  let σ2 := σ1.set copyIdx (DFrame.ords (rowsO (σ1.getD copyIdx (.ords []))))
  let rows := rowsO (σ2.getD copyIdx (.ords []))
  let σ3 := σ2 ++ [DFrame.ords rows]
  let rev := get_revenue_over_time freqDays rows
  let σ4 := σ3 ++ [DFrame.tblT rev]
  (rev, σ4)

/-! ## Persistence (src/data/generator.py, save_data / load_data)

`save_data` writes the dataframes cell-by-cell (`to_csv`; CSV quoting is a
faithful bijection on cell text and is left implicit); `load_data` re-reads
them through `read_csv` type inference, then re-parses the two customer
date columns and `order_date` with `to_datetime(...).dt.date`, and applies
`ast.literal_eval` to `interests` -- and to nothing else: in particular
`pain_points` and `lifetime_value` are NOT post-processed. -/

/-- A customer dataframe row (the `model_dump` column order of the
pydantic model). -/
structure CustVals where
  customer_id : PyVal
  name : PyVal
  email : PyVal
  segment : PyVal
  interests : PyVal
  last_contact_date : PyVal
  created_at : PyVal
  engagement_score : PyVal
  preferred_contact_time : PyVal
  pain_points : PyVal
  buying_behavior : PyVal
  response_rate : PyVal
  lifetime_value : PyVal
deriving DecidableEq

/-- An order dataframe row. -/
structure OrdVals where
  order_id : PyVal
  customer_id : PyVal
  order_date : PyVal
  amount : PyVal
  product_category : PyVal
  channel : PyVal
deriving DecidableEq

/-- `customer.model_dump()`. -/
def custToRow (c : Customer) : CustVals :=
  { customer_id := .vstr c.customer_id, name := .vstr c.name,
    email := .vstr c.email, segment := .vstr c.segment,
    interests := .vlist c.interests,
    last_contact_date := .vdate c.last_contact_date,
    created_at := .vdate c.created_at,
    engagement_score := .vint (c.engagement_score : ℤ),
    preferred_contact_time := .vstr c.preferred_contact_time,
    pain_points := .vlist c.pain_points,
    buying_behavior := .vstr c.buying_behavior,
    response_rate := .vfloat c.response_rate,
    lifetime_value := match c.lifetime_value with
      | none => .vnone
      | some q => .vfloat q }

/-- `order.model_dump()`. -/
def ordToRow (o : Order) : OrdVals :=
  { order_id := .vstr o.order_id, customer_id := .vstr o.customer_id,
    order_date := .vdate o.order_date, amount := .vfloat o.amount,
    product_category := .vstr o.product_category, channel := .vstr o.channel }

/-- One customer row as `to_csv` writes it. -/
def saveCustCells (r : CustVals) : List String :=
  [cellOf r.customer_id, cellOf r.name, cellOf r.email, cellOf r.segment,
   cellOf r.interests, cellOf r.last_contact_date, cellOf r.created_at,
   cellOf r.engagement_score, cellOf r.preferred_contact_time,
   cellOf r.pain_points, cellOf r.buying_behavior, cellOf r.response_rate,
   cellOf r.lifetime_value]

/-- One order row as `to_csv` writes it. -/
def saveOrdCells (r : OrdVals) : List String :=
  [cellOf r.order_id, cellOf r.customer_id, cellOf r.order_date,
   cellOf r.amount, cellOf r.product_category, cellOf r.channel]

/-- One customer row as `load_data` rebuilds it: `read_csv` inference on
every cell, then `to_datetime` on the two date columns, then
`literal_eval` on `interests` (a malformed date or interests cell fails
the load). -/
def loadCustCells (cells : List String) : Except String CustVals :=
  match cells with
  | [c1, c2, c3, c4, c5, c6, c7, c8, c9, c10, c11, c12, c13] =>
    match parseDateChars c6.data, parseDateChars c7.data with
    | some d6, some d7 =>
      match parseListChars c5.data with
      | none => .error "malformed interests"
      | some ints =>
        .ok { customer_id := parseCell c1, name := parseCell c2,
              email := parseCell c3, segment := parseCell c4,
              interests := .vlist ints, last_contact_date := .vdate d6,
              created_at := .vdate d7, engagement_score := parseCell c8,
              preferred_contact_time := parseCell c9,
              pain_points := parseCell c10, buying_behavior := parseCell c11,
              response_rate := parseCell c12, lifetime_value := parseCell c13 }
    | _, _ => .error "malformed date"
  | _ => .error "bad row"

/-- One order row as `load_data` rebuilds it. -/
def loadOrdCells (cells : List String) : Except String OrdVals :=
  match cells with
  | [c1, c2, c3, c4, c5, c6] =>
    match parseDateChars c3.data with
    | some d =>
      .ok { order_id := parseCell c1, customer_id := parseCell c2,
            order_date := .vdate d, amount := parseCell c4,
            product_category := parseCell c5, channel := parseCell c6 }
    | none => .error "malformed date"
  | _ => .error "bad row"

/-- `save_data`, customers file: one CSV row per dataframe row, in order. -/
def save_data_customers (cs : List Customer) : List (List String) :=
  cs.map (fun c => saveCustCells (custToRow c))

/-- `save_data`, orders file. -/
def save_data_orders (os : List Order) : List (List String) :=
  os.map (fun o => saveOrdCells (ordToRow o))

/-- `load_data`, customers file: row order preserved, first failure
aborts the load. -/
def load_data_customers : List (List String) → Except String (List CustVals)
  | [] => .ok []
  | r :: rest =>
    match loadCustCells r with
    | .error e => .error e
    | .ok v =>
      match load_data_customers rest with
      | .error e => .error e
      | .ok vs => .ok (v :: vs)

/-- `load_data`, orders file. -/
def load_data_orders : List (List String) → Except String (List OrdVals)
  | [] => .ok []
  | r :: rest =>
    match loadOrdCells r with
    | .error e => .error e
    | .ok v =>
      match load_data_orders rest with
      | .error e => .error e
      | .ok vs => .ok (v :: vs)

/-- What reload actually does to a generated customer row: every field
round-trips except `pain_points` (stays the literal text, never parsed
back to a list) and `lifetime_value` (`None` is written as an empty cell
and read back as `NaN`). -/
def reloadFix (r : CustVals) : CustVals :=
  { r with pain_points := .vstr "[]", lifetime_value := .vnan }

/-! ## Lemmas about the random primitives -/

theorem choiceE_mem (l : List String) (s : ℕ) (x : String) (s2 : ℕ)
    (h : choiceE l s = .ok (x, s2)) : x ∈ l := by
  unfold choiceE at h
  by_cases he : l.isEmpty
  · rw [if_pos he] at h
    exact absurd h (by simp)
  · rw [if_neg he] at h
    simp only [Except.ok.injEq, Prod.mk.injEq] at h
    have hlen : 0 < l.length := by
      cases l with
      | nil => simp at he
      | cons a t => simp
    have hi : (randNat s).1 % l.length < l.length := Nat.mod_lt _ hlen
    rw [← h.1]
    rw [List.getD_eq_getElem l "" hi]
    exact List.getElem_mem hi

theorem sampleAux_length (k : ℕ) :
    ∀ (pool : List String) (s : ℕ), (sampleAux k pool s).1.length = k := by
  induction k with
  | zero => intro pool s; rfl
  | succ k ih =>
    intro pool s
    unfold sampleAux
    simp only [List.length_cons]
    rw [ih]

theorem sampleAux_subset (k : ℕ) :
    ∀ (pool : List String) (s : ℕ), k ≤ pool.length →
      ∀ x ∈ (sampleAux k pool s).1, x ∈ pool := by
  induction k with
  | zero => intro pool s _ x hx; exact absurd hx (by simp [sampleAux])
  | succ k ih =>
    intro pool s hk x hx
    unfold sampleAux at hx
    simp only [List.mem_cons] at hx
    have hlen : 0 < pool.length := by omega
    have hi : (randNat s).1 % pool.length < pool.length := Nat.mod_lt _ hlen
    rcases hx with hx | hx
    · subst hx
      rw [List.getD_eq_getElem pool "" hi]
      exact List.getElem_mem hi
    · have hsub : (pool.eraseIdx ((randNat s).1 % pool.length)).Sublist pool :=
        List.eraseIdx_sublist pool _
      have hklen : k ≤ (pool.eraseIdx ((randNat s).1 % pool.length)).length := by
        rw [List.length_eraseIdx]
        simp only [hi, if_true]
        omega
      exact hsub.subset (ih _ _ hklen x hx)

theorem sampleE_ok (pool : List String) (k s : ℕ) (xs : List String) (s2 : ℕ)
    (h : sampleE pool k s = .ok (xs, s2)) :
    xs.length = k ∧ ∀ x ∈ xs, x ∈ pool := by
  unfold sampleE at h
  by_cases hk : pool.length < k
  · rw [if_pos hk] at h
    exact absurd h (by simp)
  · rw [if_neg hk] at h
    simp only [Except.ok.injEq] at h
    have hx : (sampleAux k pool s).1 = xs := by rw [h]
    rw [← hx]
    exact ⟨sampleAux_length k pool s, sampleAux_subset k pool s (by omega)⟩

theorem randUniform_lower (a b : ℚ) (s : ℕ) (hab : a ≤ b) :
    a ≤ (randUniform a b s).1 := by
  unfold randUniform
  simp only
  have h1 : (0 : ℚ) ≤ (((randNat s).1 % 1048576 : ℕ) : ℚ) / 1048576 := by positivity
  nlinarith

theorem amountDraw_lower (segment : String) (rs : ℕ) :
    300 ≤ (amountDraw segment rs).1 := by
  unfold amountDraw
  split_ifs with h1 h2 h3
  · linarith [randUniform_lower 5000 20000 rs (by norm_num)]
  · linarith [randUniform_lower 2000 8000 rs (by norm_num)]
  · linarith [randUniform_lower 500 3000 rs (by norm_num)]
  · linarith [randUniform_lower 300 2000 rs (by norm_num)]

theorem roundHalfEvenZ_ge_floor (x : ℚ) : ⌊x⌋ ≤ roundHalfEvenZ x := by
  unfold roundHalfEvenZ
  split_ifs <;> omega

/-- `round(x, 2)` of a value at least 1 is a positive 2-decimal rational. -/
theorem round2_shape (q : ℚ) (h : 1 ≤ q) :
    ∃ n : ℕ, 0 < n ∧ round2 q = (n : ℚ) / 100 := by
  have h100 : (100 : ℤ) ≤ ⌊q * 100⌋ := by
    rw [Int.le_floor]
    push_cast
    linarith
  have hpos : 0 < roundHalfEvenZ (q * 100) := by
    have := roundHalfEvenZ_ge_floor (q * 100)
    omega
  refine ⟨(roundHalfEvenZ (q * 100)).toNat, by omega, ?_⟩
  unfold round2
  have hcast : (((roundHalfEvenZ (q * 100)).toNat : ℕ) : ℚ) =
      ((roundHalfEvenZ (q * 100) : ℤ) : ℚ) := by
    rw [← Int.cast_natCast]
    congr 1
    omega
  rw [hcast]

/-! ## Generator invariants -/

instance {ε α : Type} [DecidableEq ε] [DecidableEq α] : DecidableEq (Except ε α) := fun x y =>
  match x, y with
  | .ok a, .ok b =>
    if h : a = b then .isTrue (by rw [h]) else .isFalse (fun hc => h (Except.ok.inj hc))
  | .error a, .error b =>
    if h : a = b then .isTrue (by rw [h]) else .isFalse (fun hc => h (Except.error.inj hc))
  | .ok _, .error _ => .isFalse (fun hc => Except.noConfusion hc)
  | .error _, .ok _ => .isFalse (fun hc => Except.noConfusion hc)

/-- Shape facts true of every customer a successful run emits. -/
def CustShape (cfg : Config) (c : Customer) : Prop :=
  (∃ k, c.customer_id = custIdString k) ∧
  (∃ k, c.name = "Name " ++ natToString k) ∧
  (∃ k, c.email = "user" ++ natToString k ++ "@example.com") ∧
  c.segment ∈ cfg.segmentDistribution.map Prod.fst ∧
  (∀ s ∈ c.interests, s ∈ cfg.interestPool) ∧
  c.interests ≠ [] ∧
  c.engagement_score = 50 ∧ c.preferred_contact_time = "morning" ∧
  c.pain_points = [] ∧ c.buying_behavior = "researcher" ∧
  c.response_rate = 1 / 2 ∧ c.lifetime_value = none

/-- Shape facts true of every order a successful run emits. -/
def OrdShape (cfg : Config) (o : Order) : Prop :=
  (∃ k, o.order_id = orderIdString k) ∧
  (∃ k, o.customer_id = custIdString k) ∧
  (∃ m : ℕ, 0 < m ∧ o.amount = (m : ℚ) / 100) ∧
  (o.product_category ∈ cfg.interestPool ∨ o.product_category ∈ cfg.productCategories) ∧
  o.channel ∈ cfg.orderChannels

theorem genOrders_inv (cfg : Config) (segment : String) (cid : ℕ)
    (ints : List String) (hints : ∀ s ∈ ints, s ∈ cfg.interestPool) :
    ∀ (n ctr rs : ℕ) (out : List Order × ℕ × ℕ),
      genOrders cfg segment (custIdString cid) ints n ctr rs = .ok out →
      ∀ o ∈ out.1, o.customer_id = custIdString cid ∧ OrdShape cfg o := by
  intro n
  induction n with
  | zero =>
    intro ctr rs out h o ho
    unfold genOrders at h
    injection h with h2
    rw [← h2] at ho
    exact absurd ho (by simp)
  | succ n ih =>
    intro ctr rs out h o ho
    unfold genOrders at h
    split at h
    · simp at h
    · rename_i dr h1
      split at h
      · simp at h
      · rename_i cp h2
        split at h
        · simp at h
        · rename_i hp h3
          split at h
          · simp at h
          · rename_i rest h4
            injection h with h5
            rw [← h5] at ho
            simp only [List.mem_cons] at ho
            rcases ho with rfl | ho
            · refine ⟨rfl, ⟨ctr, rfl⟩, ⟨cid, rfl⟩, ?_, ?_, ?_⟩
              · have hamt : (1 : ℚ) ≤ (amountDraw segment dr.2).1 := by
                  linarith [amountDraw_lower segment dr.2]
                exact round2_shape _ hamt
              · by_cases hie : ints.isEmpty
                · rw [if_pos hie] at h2
                  exact Or.inr (choiceE_mem _ _ _ _ h2)
                · rw [if_neg hie] at h2
                  exact Or.inl (hints _ (choiceE_mem _ _ _ _ h2))
              · exact choiceE_mem _ _ _ _ h3
            · exact ih (ctr + 1) hp.2 rest h4 o ho

theorem genCustomer_inv (cfg : Config) (segment : String)
    (hseg : segment ∈ cfg.segmentDistribution.map Prod.fst)
    (cid ctr rs fs : ℕ) (out : Customer × List Order × ℕ × ℕ × ℕ)
    (h : genCustomer cfg segment cid ctr rs fs = .ok out) :
    (CustShape cfg out.1 ∧ out.1.customer_id = custIdString cid ∧
      out.1.segment = segment) ∧
    (∀ o ∈ out.2.1, o.customer_id = custIdString cid ∧ OrdShape cfg o) := by
  unfold genCustomer at h
  split at h
  · simp at h
  · rename_i cr h1
    split at h
    · simp at h
    · rename_i lr h2
      split at h
      · simp at h
      · rename_i ir h3
        split at h
        · simp at h
        · rename_i sp h4
          split at h
          · simp at h
          · rename_i nr h5
            split at h
            · simp at h
            · rename_i ro h6
              injection h with h7
              have hsp := sampleE_ok _ _ _ _ _ h4
              have hilen : ir.1 = 2 + (randNat lr.2).1 % 3 := by
                unfold randintE at h3
                rw [if_neg (by norm_num)] at h3
                injection h3 with h3a
                rw [← h3a]
                simp [randNat]
              have hne : sp.1 ≠ [] := by
                intro hcon
                have hl := hsp.1
                rw [hcon] at hl
                simp at hl
                omega
              constructor
              · rw [← h7]
                refine ⟨⟨⟨cid, rfl⟩, ⟨(fakerStep fs % 100000), rfl⟩,
                  ⟨(fakerStep (fakeName fs).2 % 100000), rfl⟩, hseg, hsp.2, hne,
                  rfl, rfl, rfl, rfl, rfl, rfl⟩, rfl, rfl⟩
              · intro o ho
                rw [← h7] at ho
                exact genOrders_inv cfg segment cid sp.1 hsp.2 nr.1 ctr nr.2 ro h6 o ho

attribute [irreducible] genCustomer

theorem genSegment_inv (cfg : Config) (segment : String)
    (hseg : segment ∈ cfg.segmentDistribution.map Prod.fst) :
    ∀ (n cid ctr rs fs : ℕ) (out : List Customer × List Order × ℕ × ℕ × ℕ × ℕ),
      genSegment cfg segment n cid ctr rs fs = .ok out →
      (∀ c ∈ out.1, CustShape cfg c ∧ c.segment = segment) ∧
      (∀ o ∈ out.2.1, OrdShape cfg o ∧ ∃ c ∈ out.1, c.customer_id = o.customer_id) ∧
      out.1.length = n := by
  intro n
  induction n with
  | zero =>
    intro cid ctr rs fs out h
    unfold genSegment at h
    injection h with h2
    rw [← h2]
    exact ⟨by simp, by simp, rfl⟩
  | succ n ih =>
    intro cid ctr rs fs out h
    unfold genSegment at h
    split at h
    · simp at h
    · rename_i r h1
      split at h
      · simp at h
      · rename_i r2 h2
        injection h with h3
        have hc := genCustomer_inv cfg segment hseg cid ctr rs fs r h1
        have hrec := ih (cid + 1) r.2.2.1 r.2.2.2.1 r.2.2.2.2 r2 h2
        rw [← h3]
        refine ⟨?_, ?_, ?_⟩
        · intro c hcm
          simp only [List.mem_cons] at hcm
          rcases hcm with rfl | hcm
          · exact ⟨hc.1.1, hc.1.2.2⟩
          · exact hrec.1 c hcm
        · intro o ho
          simp only [List.mem_append] at ho
          rcases ho with ho | ho
          · have hoo := hc.2 o ho
            exact ⟨hoo.2, r.1, List.mem_cons_self _ _, by rw [hc.1.2.1, hoo.1]⟩
          · have hoo := hrec.2.1 o ho
            obtain ⟨c2, hc2, hid⟩ := hoo.2
            exact ⟨hoo.1, c2, List.mem_cons_of_mem _ hc2, hid⟩
        · simp only [List.length_cons]
          rw [hrec.2.2]

attribute [irreducible] genSegment

theorem genSegments_inv (cfg : Config) :
    ∀ (counts : List (String × ℤ)),
      (∀ p ∈ counts, p.1 ∈ cfg.segmentDistribution.map Prod.fst) →
      ∀ (cid ctr rs fs : ℕ) (out : List Customer × List Order × ℕ × ℕ × ℕ × ℕ),
        genSegments cfg counts cid ctr rs fs = .ok out →
        (∀ c ∈ out.1, CustShape cfg c) ∧
        (∀ o ∈ out.2.1, OrdShape cfg o ∧ ∃ c ∈ out.1, c.customer_id = o.customer_id) ∧
        out.1.length = (counts.map (fun p => p.2.toNat)).sum := by
  intro counts
  induction counts with
  | nil =>
    intro _ cid ctr rs fs out h
    unfold genSegments at h
    injection h with h2
    rw [← h2]
    exact ⟨by simp, by simp, rfl⟩
  | cons sc rest ih =>
    intro hkeys cid ctr rs fs out h
    unfold genSegments at h
    split at h
    · simp at h
    · rename_i r h1
      split at h
      · simp at h
      · rename_i r2 h2
        injection h with h3
        have hsc := genSegment_inv cfg sc.1 (hkeys sc (List.mem_cons_self _ _))
          sc.2.toNat cid ctr rs fs r h1
        have hrec := ih (fun p hp => hkeys p (List.mem_cons_of_mem _ hp))
          r.2.2.1 r.2.2.2.1 r.2.2.2.2.1 r.2.2.2.2.2 r2 h2
        rw [← h3]
        refine ⟨?_, ?_, ?_⟩
        · intro c hcm
          simp only [List.mem_append] at hcm
          rcases hcm with hcm | hcm
          · exact (hsc.1 c hcm).1
          · exact hrec.1 c hcm
        · intro o ho
          simp only [List.mem_append] at ho
          rcases ho with ho | ho
          · have hoo := hsc.2.1 o ho
            obtain ⟨c2, hc2, hid⟩ := hoo.2
            exact ⟨hoo.1, c2, by simp only [List.mem_append]; exact Or.inl hc2, hid⟩
          · have hoo := hrec.2.1 o ho
            obtain ⟨c2, hc2, hid⟩ := hoo.2
            exact ⟨hoo.1, c2, by simp only [List.mem_append]; exact Or.inr hc2, hid⟩
        · simp only [List.length_append, List.map_cons, List.sum_cons]
          rw [hsc.2.2, hrec.2.2]

attribute [irreducible] genSegments

/-- Keys of the adjusted counts are the distribution's keys. -/
theorem addToFirst_keys (key : String) (d : ℤ) :
    ∀ (l : List (String × ℤ)),
      (addToFirst l key d).map Prod.fst = l.map Prod.fst := by
  intro l
  induction l with
  | nil => rfl
  | cons p rest ih =>
    obtain ⟨k, v⟩ := p
    unfold addToFirst
    by_cases hk : k = key
    · rw [if_pos hk]
      simp
    · rw [if_neg hk]
      simp only [List.map_cons]
      rw [ih]

theorem adjustedCounts_keys (cfg : Config) (counts : List (String × ℤ))
    (h : adjustedCounts cfg = .ok counts) :
    counts.map Prod.fst = cfg.segmentDistribution.map Prod.fst := by
  unfold adjustedCounts at h
  split_ifs at h with h1 h2
  · injection h with h3
    rw [← h3, addToFirst_keys]
    unfold rawSegmentCounts
    rw [List.map_map]
    rfl
  · injection h with h3
    rw [← h3]
    unfold rawSegmentCounts
    rw [List.map_map]
    rfl

/-- The master invariant of one successful generation run. -/
theorem generate_inv (cfg : Config) (g : ℕ × ℕ)
    (cs : List Customer) (os : List Order)
    (h : generate_synthetic_data cfg g = .ok (cs, os)) :
    (∀ c ∈ cs, CustShape cfg c) ∧
    (∀ o ∈ os, OrdShape cfg o ∧ ∃ c ∈ cs, c.customer_id = o.customer_id) := by
  unfold generate_synthetic_data at h
  split at h
  · simp at h
  · rename_i counts h1
    split at h
    · simp at h
    · rename_i r h2
      injection h with h3
      have hkeys : ∀ p ∈ counts, p.1 ∈ cfg.segmentDistribution.map Prod.fst := by
        intro p hp
        have hk := adjustedCounts_keys cfg counts h1
        rw [← hk]
        exact List.mem_map_of_mem Prod.fst hp
      have hinv := genSegments_inv cfg counts hkeys 1 1 _ _ r h2
      have hcs : r.1 = cs := congrArg Prod.fst h3
      have hos : r.2.1 = os := congrArg Prod.snd h3
      rw [hcs, hos] at hinv
      exact ⟨hinv.1, hinv.2.1⟩

/-! ## Segment-count arithmetic (claim C6 support) -/

theorem rawSegmentCounts_keys (cfg : Config) :
    (rawSegmentCounts cfg).map Prod.fst = cfg.segmentDistribution.map Prod.fst := by
  unfold rawSegmentCounts
  rw [List.map_map]
  rfl

theorem intTrunc_nonneg (q : ℚ) (h : 0 ≤ q) : 0 ≤ intTrunc q := by
  unfold intTrunc
  rw [if_pos h]
  exact Int.floor_nonneg.mpr h

theorem intTrunc_le (q : ℚ) (h : 0 ≤ q) : (intTrunc q : ℚ) ≤ q := by
  unfold intTrunc
  rw [if_pos h]
  exact Int.floor_le q

theorem trunc_sum_le (N : ℕ) :
    ∀ (l : List (String × ℚ)), (∀ p ∈ l, 0 ≤ p.2) →
      (((l.map (fun p => intTrunc ((N : ℚ) * p.2))).sum : ℤ) : ℚ) ≤
        (N : ℚ) * (l.map Prod.snd).sum := by
  intro l
  induction l with
  | nil => simp
  | cons p rest ih =>
    intro hnn
    simp only [List.map_cons, List.sum_cons]
    push_cast
    have h1 : (intTrunc ((N : ℚ) * p.2) : ℚ) ≤ (N : ℚ) * p.2 :=
      intTrunc_le _ (by
        have := hnn p (List.mem_cons_self _ _)
        positivity)
    have h2 := ih (fun q hq => hnn q (List.mem_cons_of_mem _ hq))
    push_cast at h2
    nlinarith [h2]

theorem addToFirst_sum (key : String) (d : ℤ) :
    ∀ (l : List (String × ℤ)), key ∈ l.map Prod.fst →
      ((addToFirst l key d).map Prod.snd).sum = (l.map Prod.snd).sum + d := by
  intro l
  induction l with
  | nil => intro h; exact absurd h (by simp)
  | cons p rest ih =>
    intro hkey
    obtain ⟨k, v⟩ := p
    unfold addToFirst
    by_cases hk : k = key
    · rw [if_pos hk]
      simp only [List.map_cons, List.sum_cons]
      ring
    · rw [if_neg hk]
      simp only [List.map_cons, List.sum_cons]
      have hmem : key ∈ rest.map Prod.fst := by
        simp only [List.map_cons, List.mem_cons] at hkey
        rcases hkey with hkey | hkey
        · exact absurd hkey.symm hk
        · exact hkey
      rw [ih hmem]
      ring

theorem addToFirst_nonneg (key : String) (d : ℤ) (hd : 0 ≤ d) :
    ∀ (l : List (String × ℤ)), (∀ p ∈ l, 0 ≤ p.2) →
      ∀ p ∈ addToFirst l key d, 0 ≤ p.2 := by
  intro l
  induction l with
  | nil => intro _ p hp; exact absurd hp (by simp [addToFirst])
  | cons q rest ih =>
    intro hnn p hp
    obtain ⟨k, v⟩ := q
    unfold addToFirst at hp
    by_cases hk : k = key
    · rw [if_pos hk] at hp
      simp only [List.mem_cons] at hp
      rcases hp with rfl | hp
      · have := hnn (k, v) (List.mem_cons_self _ _)
        simp only at this ⊢
        omega
      · exact hnn p (List.mem_cons_of_mem _ hp)
    · rw [if_neg hk] at hp
      simp only [List.mem_cons] at hp
      rcases hp with rfl | hp
      · exact hnn (k, v) (List.mem_cons_self _ _)
      · exact ih (fun q hq => hnn q (List.mem_cons_of_mem _ hq)) p hp

theorem sum_toNat_eq (l : List (String × ℤ)) (hnn : ∀ p ∈ l, 0 ≤ p.2) :
    ((l.map (fun p => p.2.toNat)).sum : ℤ) = (l.map Prod.snd).sum := by
  induction l with
  | nil => rfl
  | cons p rest ih =>
    simp only [List.map_cons, List.sum_cons]
    rw [Int.toNat_of_nonneg (hnn p (List.mem_cons_self _ _)),
      ih (fun q hq => hnn q (List.mem_cons_of_mem _ hq))]

/-- After the remainder adjustment the per-segment counts sum to
`num_customers`, and all counts are nonnegative. -/
theorem adjustedCounts_sum (cfg : Config)
    (hnn : ∀ p ∈ cfg.segmentDistribution, 0 ≤ p.2)
    (hsum : (cfg.segmentDistribution.map Prod.snd).sum = 1)
    (hret : "returning" ∈ cfg.segmentDistribution.map Prod.fst)
    (counts : List (String × ℤ)) (hok : adjustedCounts cfg = .ok counts) :
    (counts.map Prod.snd).sum = (cfg.numCustomers : ℤ) ∧
      ∀ p ∈ counts, 0 ≤ p.2 := by
  have hS : (((rawSegmentCounts cfg).map Prod.snd).sum : ℚ) ≤ (cfg.numCustomers : ℚ) := by
    have := trunc_sum_le cfg.numCustomers cfg.segmentDistribution hnn
    rw [hsum, mul_one] at this
    unfold rawSegmentCounts
    rw [List.map_map]
    exact this
  have hSz : ((rawSegmentCounts cfg).map Prod.snd).sum ≤ (cfg.numCustomers : ℤ) := by
    exact_mod_cast hS
  have hretraw : "returning" ∈ (rawSegmentCounts cfg).map Prod.fst := by
    rw [rawSegmentCounts_keys]; exact hret
  have hrawnn : ∀ p ∈ rawSegmentCounts cfg, 0 ≤ p.2 := by
    intro p hp
    unfold rawSegmentCounts at hp
    rw [List.mem_map] at hp
    obtain ⟨q, hq, rfl⟩ := hp
    exact intTrunc_nonneg _ (by
      have := hnn q hq
      positivity)
  unfold adjustedCounts at hok
  by_cases hdiff : 0 < (cfg.numCustomers : ℤ) - ((rawSegmentCounts cfg).map Prod.snd).sum
  · rw [if_pos hdiff, if_pos hretraw] at hok
    injection hok with h2
    rw [← h2]
    constructor
    · rw [addToFirst_sum _ _ _ hretraw]
      ring
    · exact addToFirst_nonneg _ _ (by omega) _ hrawnn
  · rw [if_neg hdiff] at hok
    injection hok with h2
    rw [← h2]
    exact ⟨by omega, hrawnn⟩

/-! ## min/max lemmas for the analytics engine -/

theorem le_foldl_max : ∀ (xs : List ℤ) (a : ℤ), a ≤ xs.foldl max a := by
  intro xs
  induction xs with
  | nil => intro a; exact le_refl a
  | cons x rest ih =>
    intro a
    calc a ≤ max a x := le_max_left a x
    _ ≤ rest.foldl max (max a x) := ih (max a x)

theorem foldl_min_le : ∀ (xs : List ℤ) (a : ℤ), xs.foldl min a ≤ a := by
  intro xs
  induction xs with
  | nil => intro a; exact le_refl a
  | cons x rest ih =>
    intro a
    calc rest.foldl min (min a x) ≤ min a x := ih (min a x)
    _ ≤ a := min_le_left a x

theorem listMinZ_le_listMaxZ (l : List ℤ) (h : l ≠ []) : listMinZ l ≤ listMaxZ l := by
  cases l with
  | nil => exact absurd rfl h
  | cons x xs =>
    unfold listMinZ listMaxZ
    calc xs.foldl min x ≤ x := foldl_min_le xs x
    _ ≤ xs.foldl max x := le_foldl_max xs x

/-- The generator emits exactly `num_customers` customers (claim C6). -/
theorem generate_customer_count (cfg : Config) (g : ℕ × ℕ)
    (cs : List Customer) (os : List Order) (counts : List (String × ℤ))
    (hnn : ∀ p ∈ cfg.segmentDistribution, 0 ≤ p.2)
    (hsum : (cfg.segmentDistribution.map Prod.snd).sum = 1)
    (hret : "returning" ∈ cfg.segmentDistribution.map Prod.fst)
    (hok : generate_synthetic_data cfg g = .ok (cs, os))
    (hcounts : adjustedCounts cfg = .ok counts) :
    cs.length = cfg.numCustomers := by
  have hadj := adjustedCounts_sum cfg hnn hsum hret counts hcounts
  unfold generate_synthetic_data at hok
  split at hok
  · simp at hok
  · rename_i counts2 h1
    have hc2 : counts2 = counts := by
      rw [hcounts] at h1
      exact (Except.ok.inj h1).symm
    subst hc2
    split at hok
    · simp at hok
    · rename_i r h2
      injection hok with h3
      have hkeys : ∀ p ∈ counts2, p.1 ∈ cfg.segmentDistribution.map Prod.fst := by
        intro p hp
        have hk := adjustedCounts_keys cfg counts2 hcounts
        rw [← hk]
        exact List.mem_map_of_mem Prod.fst hp
      have hlen := (genSegments_inv cfg counts2 hkeys 1 1 _ _ r h2).2.2
      have hcs : r.1 = cs := congrArg Prod.fst h3
      rw [hcs] at hlen
      have hnat := sum_toNat_eq counts2 hadj.2
      rw [hadj.1] at hnat
      rw [hlen]
      have hnat2 : (((List.map (fun p => p.2.toNat) counts2).sum : ℕ) : ℤ) =
          (cfg.numCustomers : ℤ) := by
        rw [Nat.cast_list_sum, List.map_map]
        simpa only [Function.comp] using hnat
      omega

/-! ## Claim theorems (part 1) -/

/-- C1: for every fixed seed and fixed configuration (the ambient clock
included), two independent runs of `generate_synthetic_data` -- starting
from arbitrary, possibly different process-global random states -- produce
identical Customer and Order collections: the function reseeds the random
sources from the configuration before any draw, so the pre-call global
state `g` is immaterial and the two runs are equal as values (same rows,
same field values, same order). -/
theorem claim_C1_generator_deterministic (cfg : Config) (g1 g2 : ℕ × ℕ) :
    generate_synthetic_data cfg g1 = generate_synthetic_data cfg g2 := rfl

/-- C3: for a customer with at least one matching order,
`calculate_customer_kpis` returns `average_order_value = total_spend /
orders_count`, `days_active = (max order_date - min order_date) + 1`, and
`order_frequency = orders_count / (days_active / 30)` with the documented
fallback to `orders_count` when the months-equivalent is not positive. -/
theorem claim_C3_kpi_formulas (customer_id : String) (customers : List CustomerRow)
    (orders : List OrderRow)
    (h : orders.filter (fun r => r.customer_id == customer_id) ≠ []) :
    (calculate_customer_kpis customer_id customers orders).average_order_value =
      (calculate_customer_kpis customer_id customers orders).total_spend /
        ((calculate_customer_kpis customer_id customers orders).orders_count : ℚ) ∧
    (calculate_customer_kpis customer_id customers orders).days_active =
      listMaxZ ((orders.filter (fun r => r.customer_id == customer_id)).map
          (fun r => r.order_date)) -
        listMinZ ((orders.filter (fun r => r.customer_id == customer_id)).map
          (fun r => r.order_date)) + 1 ∧
    (calculate_customer_kpis customer_id customers orders).order_frequency =
      (if 0 < ((calculate_customer_kpis customer_id customers orders).days_active : ℚ) / 30
       then ((calculate_customer_kpis customer_id customers orders).orders_count : ℚ) /
          (((calculate_customer_kpis customer_id customers orders).days_active : ℚ) / 30)
       else ((calculate_customer_kpis customer_id customers orders).orders_count : ℚ)) := by
  have hlen : ¬(orders.filter (fun r => r.customer_id == customer_id)).length = 0 := by
    intro hcon
    exact h (List.length_eq_zero.mp hcon)
  unfold calculate_customer_kpis kpisFromFiltered
  rw [if_neg hlen]
  refine ⟨?_, rfl, rfl⟩
  rw [if_pos (Nat.pos_of_ne_zero hlen)]

/-- C4: for a customer with no matching orders, `calculate_customer_kpis`
returns exactly the documented zero-valued sentinel record (and, being a
total function of its inputs, does not raise). -/
theorem claim_C4_no_orders_sentinel (customer_id : String)
    (customers : List CustomerRow) (orders : List OrderRow)
    (h : orders.filter (fun r => r.customer_id == customer_id) = []) :
    calculate_customer_kpis customer_id customers orders =
      { total_spend := 0, orders_count := 0, average_order_value := 0,
        order_frequency := 0, top_category := "N/A", days_active := 0 } := by
  unfold calculate_customer_kpis kpisFromFiltered
  rw [h]
  rfl

/-- C5: every order emitted by a successful generation run references a
customer generated in the same run, and its amount is strictly positive. -/
theorem claim_C5_order_integrity (cfg : Config) (g : ℕ × ℕ)
    (cs : List Customer) (os : List Order) (o : Order)
    (hok : generate_synthetic_data cfg g = .ok (cs, os)) (ho : o ∈ os) :
    (∃ c ∈ cs, c.customer_id = o.customer_id) ∧ 0 < o.amount := by
  have hinv := (generate_inv cfg g cs os hok).2 o ho
  refine ⟨hinv.2, ?_⟩
  obtain ⟨_, _, ⟨m, hm, hamt⟩, _, _⟩ := hinv.1
  rw [hamt]
  have hmq : (0 : ℚ) < (m : ℚ) := by exact_mod_cast hm
  positivity

/-- C6: for a valid configuration (nonnegative fractions summing to 1,
with a `"returning"` segment), the per-segment counts obtained by
truncating `num_customers * fraction` and adding the rounding remainder to
`"returning"` sum to `num_customers`, and a successful run emits exactly
that many customers. -/
theorem claim_C6_segment_counts (cfg : Config) (g : ℕ × ℕ)
    (cs : List Customer) (os : List Order) (counts : List (String × ℤ))
    (hnn : ∀ p ∈ cfg.segmentDistribution, 0 ≤ p.2)
    (hsum : (cfg.segmentDistribution.map Prod.snd).sum = 1)
    (hret : "returning" ∈ cfg.segmentDistribution.map Prod.fst)
    (hcounts : adjustedCounts cfg = .ok counts)
    (hok : generate_synthetic_data cfg g = .ok (cs, os)) :
    (counts.map Prod.snd).sum = (cfg.numCustomers : ℤ) ∧
      cs.length = cfg.numCustomers := by
  exact ⟨(adjustedCounts_sum cfg hnn hsum hret counts hcounts).1,
    generate_customer_count cfg g cs os counts hnn hsum hret hok hcounts⟩

/-- C10: with at least one matching order, `days_active ≥ 1`, hence the
months-equivalent `days_active / 30` is strictly positive, the fallback
branch `order_frequency = orders_count` is unreachable, and
`order_frequency = orders_count * 30 / days_active`. -/
theorem claim_C10_frequency_fallback_unreachable (customer_id : String)
    (customers : List CustomerRow) (orders : List OrderRow)
    (h : orders.filter (fun r => r.customer_id == customer_id) ≠ []) :
    1 ≤ (calculate_customer_kpis customer_id customers orders).days_active ∧
    0 < (((calculate_customer_kpis customer_id customers orders).days_active : ℚ) / 30) ∧
    (calculate_customer_kpis customer_id customers orders).order_frequency =
      ((calculate_customer_kpis customer_id customers orders).orders_count : ℚ) * 30 /
        ((calculate_customer_kpis customer_id customers orders).days_active : ℚ) := by
  have hlen : ¬(orders.filter (fun r => r.customer_id == customer_id)).length = 0 := by
    intro hcon
    exact h (List.length_eq_zero.mp hcon)
  have hmm : listMinZ ((orders.filter (fun r => r.customer_id == customer_id)).map
      (fun r => r.order_date)) ≤
      listMaxZ ((orders.filter (fun r => r.customer_id == customer_id)).map
      (fun r => r.order_date)) := by
    apply listMinZ_le_listMaxZ
    intro hcon
    rw [List.map_eq_nil_iff] at hcon
    exact h hcon
  unfold calculate_customer_kpis kpisFromFiltered
  rw [if_neg hlen]
  simp only
  have hd1 : (1 : ℤ) ≤ listMaxZ ((orders.filter (fun r => r.customer_id == customer_id)).map
      (fun r => r.order_date)) -
      listMinZ ((orders.filter (fun r => r.customer_id == customer_id)).map
      (fun r => r.order_date)) + 1 := by omega
  refine ⟨hd1, ?_, ?_⟩
  · have : (1 : ℚ) ≤ ((listMaxZ ((orders.filter (fun r => r.customer_id == customer_id)).map
        (fun r => r.order_date)) -
        listMinZ ((orders.filter (fun r => r.customer_id == customer_id)).map
        (fun r => r.order_date)) + 1 : ℤ) : ℚ) := by exact_mod_cast hd1
    linarith
  · have hpos : (0 : ℚ) < ((listMaxZ ((orders.filter (fun r => r.customer_id == customer_id)).map
        (fun r => r.order_date)) -
        listMinZ ((orders.filter (fun r => r.customer_id == customer_id)).map
        (fun r => r.order_date)) + 1 : ℤ) : ℚ) / 30 := by
      have : (1 : ℚ) ≤ ((listMaxZ ((orders.filter (fun r => r.customer_id == customer_id)).map
          (fun r => r.order_date)) -
          listMinZ ((orders.filter (fun r => r.customer_id == customer_id)).map
          (fun r => r.order_date)) + 1 : ℤ) : ℚ) := by exact_mod_cast hd1
      linarith
    rw [if_pos hpos]
    have hne : ((listMaxZ ((orders.filter (fun r => r.customer_id == customer_id)).map
        (fun r => r.order_date)) -
        listMinZ ((orders.filter (fun r => r.customer_id == customer_id)).map
        (fun r => r.order_date)) + 1 : ℤ) : ℚ) ≠ 0 := by
      intro hcon
      rw [hcon] at hpos
      simp at hpos
    field_simp

/-! ## Safe cells of the generated data (claim C2 support) -/

/-- A configuration whose fixed vocabulary strings (interest pool, product
categories, channels, segment names) survive `read_csv` type inference:
non-empty and not starting with a digit, `-` or `.` (a category `"007"`
would be re-read as the integer 7).  Any realistic configuration (plain
words) satisfies this; quotes inside the strings are fine, `repr` and
`literal_eval` round-trip them. -/
def SafeConfig (cfg : Config) : Prop :=
  (∀ s ∈ cfg.interestPool, SafeCell s) ∧
  (∀ s ∈ cfg.productCategories, SafeCell s) ∧
  (∀ s ∈ cfg.orderChannels, SafeCell s) ∧
  (∀ p ∈ cfg.segmentDistribution, SafeCell p.1)

instance (cfg : Config) : Decidable (SafeConfig cfg) := by
  unfold SafeConfig
  infer_instance

theorem safeCell_of_head (s : String) (c : Char) (rest : List Char)
    (h : s.data = c :: rest) (h1 : c.isDigit = false) (h2 : c ≠ '-') (h3 : c ≠ '.') :
    SafeCell s := by
  unfold SafeCell
  rw [h]
  exact ⟨h1, h2, h3⟩

theorem custIdString_safe (k : ℕ) : SafeCell (custIdString k) :=
  safeCell_of_head _ 'C' ("UST" ++ String.mk (padZeros 4 (natToChars k))).data rfl
    (by decide) (by decide) (by decide)

theorem orderIdString_safe (k : ℕ) : SafeCell (orderIdString k) :=
  safeCell_of_head _ 'O' ("RD" ++ String.mk (padZeros 8 (natToChars k))).data rfl
    (by decide) (by decide) (by decide)

theorem nameString_safe (k : ℕ) : SafeCell ("Name " ++ natToString k) :=
  safeCell_of_head _ 'N' ("ame " ++ natToString k).data rfl
    (by decide) (by decide) (by decide)

theorem emailString_safe (k : ℕ) :
    SafeCell ("user" ++ natToString k ++ "@example.com") :=
  safeCell_of_head _ 'u' ("ser" ++ natToString k ++ "@example.com").data rfl
    (by decide) (by decide) (by decide)

theorem floatToChars_cents (m : ℕ) : floatToChars ((m : ℚ) / 100) = centsToChars m := by
  unfold floatToChars
  rw [if_neg (not_lt.mpr (by positivity))]
  congr 1
  have h1 : ((m : ℚ) / 100) * 100 = (m : ℚ) := by field_simp
  rw [h1, Int.floor_natCast, Int.toNat_natCast]

theorem string_data_mk (l : List Char) : (String.mk l).data = l := rfl

theorem parseCell_natToString (n : ℕ) : parseCell (natToString n) = .vint (n : ℤ) := by
  have hne := natToChars_ne_nil n
  cases hA : natToChars n with
  | nil => exact absurd hA hne
  | cons a rest =>
    have ha : a.isDigit = true := natToChars_head_digit n a (hA ▸ List.mem_cons_self _ _)
    have hadash : a ≠ '-' := by
      intro hcon
      rw [hcon] at ha
      simp at ha
    have hd : (natToString n).data = a :: rest := by
      unfold natToString
      rw [string_data_mk, hA]
    have hp : parseNatChars (a :: rest) = some n := by
      rw [← hA]
      exact parseNatChars_natToChars n
    rw [parseCell_eq _ a rest hd, parseIntChars_not_dash a rest hadash, hp]
    rfl

theorem cellOf_vint_natCast (n : ℕ) : cellOf (.vint (n : ℤ)) = natToString n := by
  simp only [cellOf]
  rw [if_neg (not_lt.mpr (by positivity)), Int.natAbs_ofNat]

theorem dateToString_data (d : Date) : (dateToString d).data = dateToChars d := rfl

theorem reprListString_data (xs : List String) :
    (reprListString xs).data = reprListChars xs := rfl

/-- Reloading one persisted generated customer row: all fields round-trip
except `pain_points` (kept as its textual form) and `lifetime_value`
(empty cell read back as NaN). -/
theorem loadCust_save_generated (cfg : Config) (c : Customer)
    (hcs : CustShape cfg c) (hsafe : SafeConfig cfg) :
    loadCustCells (saveCustCells (custToRow c)) = .ok (reloadFix (custToRow c)) := by
  obtain ⟨⟨k1, hid⟩, ⟨k2, hnm⟩, ⟨k3, hem⟩, hsegm, hints, hintne, heng, hpref,
    hpain, hbuy, hresp, hltv⟩ := hcs
  obtain ⟨hpool, hcats, hchans, hsegs⟩ := hsafe
  have hsegsafe : SafeCell c.segment := by
    obtain ⟨p, hp, hps⟩ := List.mem_map.mp hsegm
    rw [← hps]
    exact hsegs p hp
  unfold custToRow reloadFix saveCustCells
  rw [hid, hnm, hem, heng, hpref, hpain, hbuy, hresp, hltv, cellOf_vint_natCast]
  simp only [cellOf]
  unfold loadCustCells
  simp only [dateToString_data, reprListString_data,
    parseDateChars_dateToChars, parseListChars_reprListChars,
    parseCell_safe _ (custIdString_safe k1), parseCell_safe _ (nameString_safe k2),
    parseCell_safe _ (emailString_safe k3), parseCell_safe _ hsegsafe,
    parseCell_natToString]
  rw [(by decide : parseCell "morning" = PyVal.vstr "morning"),
    (by decide : parseCell "researcher" = PyVal.vstr "researcher"),
    (by decide : parseCell (reprListString []) = PyVal.vstr "[]"),
    (by with_unfolding_all decide : parseCell (floatToString (1 / 2)) = PyVal.vfloat (1 / 2))]
  rfl

/-- Reloading one persisted generated order row is the identity (every
order field round-trips). -/
theorem loadOrd_save_generated (cfg : Config) (o : Order)
    (hos : OrdShape cfg o) (hsafe : SafeConfig cfg) :
    loadOrdCells (saveOrdCells (ordToRow o)) = .ok (ordToRow o) := by
  obtain ⟨⟨k1, hoid⟩, ⟨k2, hcid⟩, ⟨m, hm, hamt⟩, hcat, hchan⟩ := hos
  obtain ⟨hpool, hcats, hchans, hsegs⟩ := hsafe
  have hcatsafe : SafeCell o.product_category := by
    rcases hcat with hcat | hcat
    · exact hpool _ hcat
    · exact hcats _ hcat
  have hchansafe : SafeCell o.channel := hchans _ hchan
  have hamtcell : parseCell (floatToString o.amount) = PyVal.vfloat o.amount := by
    rw [hamt]
    unfold floatToString
    rw [floatToChars_cents, parseCell_cents]
  unfold ordToRow saveOrdCells
  rw [hoid, hcid]
  simp only [cellOf]
  unfold loadOrdCells
  simp only [dateToString_data, parseDateChars_dateToChars,
    parseCell_safe _ (orderIdString_safe k1), parseCell_safe _ (custIdString_safe k2),
    parseCell_safe _ hcatsafe, parseCell_safe _ hchansafe, hamtcell]

/-- Row order and multiplicity are preserved: reloading the saved customer
file yields exactly the saved rows, fixed up per `reloadFix`. -/
theorem load_save_customers (cfg : Config) (hsafe : SafeConfig cfg) :
    ∀ (cs : List Customer), (∀ c ∈ cs, CustShape cfg c) →
      load_data_customers (save_data_customers cs) =
        .ok (cs.map (fun c => reloadFix (custToRow c))) := by
  intro cs
  induction cs with
  | nil => intro _; rfl
  | cons c rest ih =>
    intro hall
    unfold save_data_customers at ih ⊢
    simp only [List.map_cons]
    unfold load_data_customers
    rw [loadCust_save_generated cfg c (hall c (List.mem_cons_self _ _)) hsafe,
      ih (fun x hx => hall x (List.mem_cons_of_mem _ hx))]

/-- Same for the orders file: reloading is the identity on the rows. -/
theorem load_save_orders (cfg : Config) (hsafe : SafeConfig cfg) :
    ∀ (os : List Order), (∀ o ∈ os, OrdShape cfg o) →
      load_data_orders (save_data_orders os) = .ok (os.map ordToRow) := by
  intro os
  induction os with
  | nil => intro _; rfl
  | cons o rest ih =>
    intro hall
    unfold save_data_orders at ih ⊢
    simp only [List.map_cons]
    unfold load_data_orders
    rw [loadOrd_save_generated cfg o (hall o (List.mem_cons_self _ _)) hsafe,
      ih (fun x hx => hall x (List.mem_cons_of_mem _ hx))]

/-! ## Failure behavior of the generator (claim C8 support) -/

theorem rawSegmentCounts_zero (cfg : Config) (h : cfg.numCustomers = 0) :
    ∀ p ∈ rawSegmentCounts cfg, p.2 = 0 := by
  intro p hp
  unfold rawSegmentCounts at hp
  rw [List.mem_map] at hp
  obtain ⟨q, hq, rfl⟩ := hp
  simp only [h]
  norm_num [intTrunc]

theorem sum_eq_zero_of_all_zero (l : List (String × ℤ)) (h : ∀ p ∈ l, p.2 = 0) :
    (l.map Prod.snd).sum = 0 := by
  induction l with
  | nil => rfl
  | cons p rest ih =>
    simp only [List.map_cons, List.sum_cons]
    rw [h p (List.mem_cons_self _ _), ih (fun q hq => h q (List.mem_cons_of_mem _ hq))]
    ring

theorem genSegments_all_zero (cfg : Config) :
    ∀ (counts : List (String × ℤ)), (∀ p ∈ counts, p.2.toNat = 0) →
      ∀ (cid ctr rs fs : ℕ),
        genSegments cfg counts cid ctr rs fs = .ok ([], [], cid, ctr, rs, fs) := by
  intro counts
  induction counts with
  | nil => intro _ cid ctr rs fs; simp only [genSegments]
  | cons sc rest ih =>
    intro hz cid ctr rs fs
    simp only [genSegments]
    rw [hz sc (List.mem_cons_self _ _)]
    simp only [genSegment]
    rw [ih (fun q hq => hz q (List.mem_cons_of_mem _ hq)) cid ctr rs fs]
    rfl

theorem generate_unfold_ok (cfg : Config) (g : ℕ × ℕ) (counts : List (String × ℤ))
    (hadj : adjustedCounts cfg = .ok counts) :
    generate_synthetic_data cfg g =
      (match genSegments cfg counts 1 1 (mkRandomState cfg.randomSeed)
          (mkFakerState cfg.randomSeed) with
        | .error e => .error e
        | .ok r => .ok (r.1, r.2.1)) := by
  unfold generate_synthetic_data
  rw [hadj]

/-- With `num_customers = 0` the generator does not fail: it returns empty
collections. -/
theorem generate_zero_customers (cfg : Config) (g : ℕ × ℕ)
    (h : cfg.numCustomers = 0) :
    generate_synthetic_data cfg g = .ok ([], []) := by
  have hz := rawSegmentCounts_zero cfg h
  have hsz := sum_eq_zero_of_all_zero _ hz
  have hadj : adjustedCounts cfg = .ok (rawSegmentCounts cfg) := by
    unfold adjustedCounts
    rw [if_neg (by rw [hsz, h]; norm_num)]
  rw [generate_unfold_ok cfg g _ hadj,
    genSegments_all_zero cfg (rawSegmentCounts cfg)
      (fun p hp => by rw [hz p hp]; rfl) 1 1 _ _]

theorem genCustomer_ok_conditions (cfg : Config) (segment : String)
    (cid ctr rs fs : ℕ) (out : Customer × List Order × ℕ × ℕ × ℕ)
    (h : genCustomer cfg segment cid ctr rs fs = .ok out) :
    2 ≤ cfg.interestPool.length ∧
      ¬ cfg.ordersPerCustomerMax < cfg.ordersPerCustomerMin := by
  unfold genCustomer at h
  split at h
  · simp at h
  · rename_i cr h1
    split at h
    · simp at h
    · rename_i lr h2
      split at h
      · simp at h
      · rename_i ir h3
        split at h
        · simp at h
        · rename_i sp h4
          split at h
          · simp at h
          · rename_i nr h5
            split at h
            · simp at h
            · have hir : ir.1 = 2 + (randNat lr.2).1 % 3 := by
                unfold randintE at h3
                rw [if_neg (by norm_num)] at h3
                injection h3 with h3a
                rw [← h3a]
                simp [randNat]
              have hlen : ¬ cfg.interestPool.length < ir.1 := by
                unfold sampleE at h4
                by_cases hc : cfg.interestPool.length < ir.1
                · rw [if_pos hc] at h4
                  exact absurd h4 (by simp)
                · exact hc
              have hmm : ¬ cfg.ordersPerCustomerMax < cfg.ordersPerCustomerMin := by
                unfold randintE at h5
                by_cases hc : cfg.ordersPerCustomerMax < cfg.ordersPerCustomerMin
                · rw [if_pos hc] at h5
                  exact absurd h5 (by simp)
                · exact hc
              exact ⟨by omega, hmm⟩

theorem genCustomer_err_empty_pool (cfg : Config) (hpool : cfg.interestPool = [])
    (segment : String) (cid ctr rs fs : ℕ) :
    ∃ e, genCustomer cfg segment cid ctr rs fs = .error e := by
  cases hres : genCustomer cfg segment cid ctr rs fs with
  | error e => exact ⟨e, rfl⟩
  | ok out =>
    have hc := (genCustomer_ok_conditions cfg segment cid ctr rs fs out hres).1
    rw [hpool] at hc
    simp at hc

theorem genCustomer_err_min_gt_max (cfg : Config)
    (hmm : cfg.ordersPerCustomerMax < cfg.ordersPerCustomerMin)
    (segment : String) (cid ctr rs fs : ℕ) :
    ∃ e, genCustomer cfg segment cid ctr rs fs = .error e := by
  cases hres : genCustomer cfg segment cid ctr rs fs with
  | error e => exact ⟨e, rfl⟩
  | ok out =>
    exact absurd hmm (genCustomer_ok_conditions cfg segment cid ctr rs fs out hres).2

theorem genSegment_err (cfg : Config) (segment : String)
    (hfail : ∀ (cid ctr rs fs : ℕ), ∃ e, genCustomer cfg segment cid ctr rs fs = .error e)
    (n : ℕ) (hn : 0 < n) (cid ctr rs fs : ℕ) :
    ∃ e, genSegment cfg segment n cid ctr rs fs = .error e := by
  cases n with
  | zero => omega
  | succ m =>
    obtain ⟨e, he⟩ := hfail cid ctr rs fs
    refine ⟨e, ?_⟩
    simp only [genSegment]
    rw [he]

theorem genSegments_err (cfg : Config)
    (hfail : ∀ (segment : String) (cid ctr rs fs : ℕ),
      ∃ e, genCustomer cfg segment cid ctr rs fs = .error e) :
    ∀ (counts : List (String × ℤ)), (∃ p ∈ counts, 0 < p.2.toNat) →
      ∀ (cid ctr rs fs : ℕ), ∃ e, genSegments cfg counts cid ctr rs fs = .error e := by
  intro counts
  induction counts with
  | nil => intro h; exact absurd h (by simp)
  | cons sc rest ih =>
    intro hsome cid ctr rs fs
    by_cases hsc : 0 < sc.2.toNat
    · obtain ⟨e, he⟩ := genSegment_err cfg sc.1 (hfail sc.1) sc.2.toNat hsc cid ctr rs fs
      refine ⟨e, ?_⟩
      simp only [genSegments]
      rw [he]
    · have hz : sc.2.toNat = 0 := by omega
      have hrest : ∃ p ∈ rest, 0 < p.2.toNat := by
        obtain ⟨p, hp, hpos⟩ := hsome
        rcases List.mem_cons.mp hp with rfl | hp
        · exact absurd hpos hsc
        · exact ⟨p, hp, hpos⟩
      simp only [genSegments]
      rw [hz]
      simp only [genSegment]
      obtain ⟨e, he⟩ := ih hrest cid ctr rs fs
      rw [he]
      exact ⟨e, rfl⟩

/-- With an empty interest pool and at least one customer scheduled, the
run raises (a `ValueError` from `random.sample`) and returns no data. -/
theorem generate_err_empty_pool (cfg : Config) (g : ℕ × ℕ)
    (hpool : cfg.interestPool = []) (counts : List (String × ℤ))
    (hadj : adjustedCounts cfg = .ok counts) (hsome : ∃ p ∈ counts, 0 < p.2.toNat) :
    ∃ e, generate_synthetic_data cfg g = .error e := by
  obtain ⟨e, he⟩ := genSegments_err cfg (fun seg => genCustomer_err_empty_pool cfg hpool seg)
    counts hsome 1 1 (mkRandomState cfg.randomSeed) (mkFakerState cfg.randomSeed)
  refine ⟨e, ?_⟩
  rw [generate_unfold_ok cfg g counts hadj, he]

/-- With `min > max` for the per-customer order range (and a large enough
interest pool so that the run reaches that draw), the run raises (a
`ValueError` from `random.randint`) and returns no data. -/
theorem generate_err_min_gt_max (cfg : Config) (g : ℕ × ℕ)
    (hmm : cfg.ordersPerCustomerMax < cfg.ordersPerCustomerMin)
    (counts : List (String × ℤ))
    (hadj : adjustedCounts cfg = .ok counts) (hsome : ∃ p ∈ counts, 0 < p.2.toNat) :
    ∃ e, generate_synthetic_data cfg g = .error e := by
  obtain ⟨e, he⟩ := genSegments_err cfg
    (fun seg => genCustomer_err_min_gt_max cfg hmm seg)
    counts hsome 1 1 (mkRandomState cfg.randomSeed) (mkFakerState cfg.randomSeed)
  refine ⟨e, ?_⟩
  rw [generate_unfold_ok cfg g counts hadj, he]

/-! ## Frame preservation of the analytics engine (claim C9 support) -/

theorem store_get_append (σ : List DFrame) (d : DFrame) (j : ℕ) (h : j < σ.length) :
    (σ ++ [d])[j]? = σ[j]? := List.getElem?_append_left h

theorem store_get_set_ne (σ : List DFrame) (i : ℕ) (d : DFrame) (j : ℕ) (h : i ≠ j) :
    (σ.set i d)[j]? = σ[j]? := List.getElem?_set_ne h

theorem kpis_df_preserves (customer_id : String) (ci oi j : ℕ) (σ : List DFrame)
    (hj : j < σ.length) :
    ((calculate_customer_kpis_df customer_id ci oi σ).2)[j]? = σ[j]? := by
  simp only [calculate_customer_kpis_df]
  rw [store_get_set_ne _ _ _ _ (by simp; omega),
    store_get_append _ _ _ (by simp; omega),
    store_get_append _ _ _ hj]

theorem profile_df_preserves (customer_id : String) (ci j : ℕ) (σ : List DFrame)
    (hj : j < σ.length) :
    ((get_customer_profile_df customer_id ci σ).2)[j]? = σ[j]? := by
  simp only [get_customer_profile_df]
  rw [store_get_append _ _ _ hj]

theorem trend_df_preserves (customer_id : String) (todayZ : ℤ) (days : ℕ)
    (oi j : ℕ) (σ : List DFrame) (hj : j < σ.length) :
    ((get_recent_trend_df customer_id todayZ days oi σ).2)[j]? = σ[j]? := by
  simp only [get_recent_trend_df]
  split_ifs with h1 h2
  · rw [store_get_append _ _ _ (by simp; omega),
      store_get_append _ _ _ hj]
  · rw [store_get_append _ _ _ (by simp; omega),
      store_get_set_ne _ _ _ _ (by simp; omega),
      store_get_append _ _ _ (by simp; omega),
      store_get_append _ _ _ hj]
  · rw [store_get_set_ne _ _ _ _ (by simp; omega),
      store_get_append _ _ _ (by simp; omega),
      store_get_append _ _ _ (by simp; omega),
      store_get_set_ne _ _ _ _ (by simp; omega),
      store_get_append _ _ _ (by simp; omega),
      store_get_append _ _ _ (by simp; omega),
      store_get_set_ne _ _ _ _ (by simp; omega),
      store_get_append _ _ _ (by simp; omega),
      store_get_append _ _ _ hj]

theorem catdist_df_preserves (customer_id : String) (oi j : ℕ) (σ : List DFrame)
    (hj : j < σ.length) :
    ((get_category_distribution_df customer_id oi σ).2)[j]? = σ[j]? := by
  simp only [get_category_distribution_df]
  split_ifs with h1
  · rw [store_get_append _ _ _ hj]
  · rw [store_get_append _ _ _ (by simp; omega),
      store_get_append _ _ _ hj]

theorem segdist_df_preserves (ci j : ℕ) (σ : List DFrame) (hj : j < σ.length) :
    ((get_overall_segment_distribution_df ci σ).2)[j]? = σ[j]? := by
  simp only [get_overall_segment_distribution_df]
  rw [store_get_append _ _ _ hj]

theorem catshare_df_preserves (oi j : ℕ) (σ : List DFrame) (hj : j < σ.length) :
    ((get_overall_category_share_df oi σ).2)[j]? = σ[j]? := by
  simp only [get_overall_category_share_df]
  rw [store_get_append _ _ _ hj]

theorem revenue_df_preserves (freqDays oi j : ℕ) (σ : List DFrame)
    (hj : j < σ.length) :
    ((get_revenue_over_time_df freqDays oi σ).2)[j]? = σ[j]? := by
  simp only [get_revenue_over_time_df]
  rw [store_get_append _ _ _ (by simp; omega),
    store_get_append _ _ _ (by simp; omega),
    store_get_set_ne _ _ _ _ (by omega),
    store_get_append _ _ _ hj]

/-- Tiny concrete store used to instantiate the frame-preservation claim. -/
def storeW : List DFrame := [DFrame.ords [], DFrame.custs []]

/-- C9: every analytics operation (customer KPIs, customer profile, recent
trend, category distribution, overall segment distribution, overall category
share, revenue over time), run on a store of dataframes, leaves every
pre-existing frame of the store -- in particular the input customer frame at
index `ci` and the input order frame at index `oi` -- unchanged: all frames the
operation produces are fresh allocations or writes to those fresh copies. -/
theorem claim_C9_analytics_no_mutation
    (customer_id : String) (todayZ : ℤ) (days freqDays ci oi j : ℕ)
    (σ : List DFrame) (hj : j < σ.length) :
    ((calculate_customer_kpis_df customer_id ci oi σ).2)[j]? = σ[j]? ∧
    ((get_customer_profile_df customer_id ci σ).2)[j]? = σ[j]? ∧
    ((get_recent_trend_df customer_id todayZ days oi σ).2)[j]? = σ[j]? ∧
    ((get_category_distribution_df customer_id oi σ).2)[j]? = σ[j]? ∧
    ((get_overall_segment_distribution_df ci σ).2)[j]? = σ[j]? ∧
    ((get_overall_category_share_df oi σ).2)[j]? = σ[j]? ∧
    ((get_revenue_over_time_df freqDays oi σ).2)[j]? = σ[j]? :=
  ⟨kpis_df_preserves _ _ _ _ _ hj, profile_df_preserves _ _ _ _ hj,
   trend_df_preserves _ _ _ _ _ _ hj, catdist_df_preserves _ _ _ _ hj,
   segdist_df_preserves _ _ _ hj, catshare_df_preserves _ _ _ hj,
   revenue_df_preserves _ _ _ _ hj⟩

/-- Witness for C9 on a concrete two-frame store. -/
theorem claim_C9_analytics_no_mutation_witness :
    0 < storeW.length ∧
    (((calculate_customer_kpis_df "CUST0001" 1 0 storeW).2)[0]? = storeW[0]? ∧
     ((get_customer_profile_df "CUST0001" 1 storeW).2)[0]? = storeW[0]? ∧
     ((get_recent_trend_df "CUST0001" 0 30 0 storeW).2)[0]? = storeW[0]? ∧
     ((get_category_distribution_df "CUST0001" 0 storeW).2)[0]? = storeW[0]? ∧
     ((get_overall_segment_distribution_df 1 storeW).2)[0]? = storeW[0]? ∧
     ((get_overall_category_share_df 0 storeW).2)[0]? = storeW[0]? ∧
     ((get_revenue_over_time_df 7 0 storeW).2)[0]? = storeW[0]?) :=
  ⟨by decide,
   claim_C9_analytics_no_mutation "CUST0001" 0 30 7 1 0 0 storeW (by decide)⟩

/-! ## Concrete configurations and run extraction -/

/-- A small demonstration configuration: one `"returning"` customer, one
order, four interests in the pool. -/
def cfgDemo : Config :=
  { numCustomers := 1,
    segmentDistribution := [("returning", 1)],
    ordersPerCustomerMin := 1, ordersPerCustomerMax := 1,
    interestPool := ["a", "b", "c", "d"],
    productCategories := ["a"],
    orderChannels := ["web"],
    dataDaysBack := 5, randomSeed := 3,
    today := { year := 2026, month := 10, day := 12 } }

/-- `cfgDemo` with zero customers requested. -/
def cfgZero : Config := { cfgDemo with numCustomers := 0 }

/-- `cfgDemo` with an empty interest pool. -/
def cfgNoPool : Config := { cfgDemo with interestPool := [] }

/-- `cfgDemo` with an inverted per-customer order-count range (min > max). -/
def cfgMinMax : Config :=
  { cfgDemo with ordersPerCustomerMin := 2, ordersPerCustomerMax := 1 }

/-- The customer list of a successful run (empty on failure). -/
def genCustomersOf (cfg : Config) (g : ℕ × ℕ) : List Customer :=
  match generate_synthetic_data cfg g with
  | .ok (cs, _) => cs
  | .error _ => []

/-- The order list of a successful run (empty on failure). -/
def genOrdersOf (cfg : Config) (g : ℕ × ℕ) : List Order :=
  match generate_synthetic_data cfg g with
  | .ok (_, os) => os
  | .error _ => []

theorem generate_eq_of_isOk (cfg : Config) (g : ℕ × ℕ)
    (h : (generate_synthetic_data cfg g).isOk = true) :
    generate_synthetic_data cfg g = .ok (genCustomersOf cfg g, genOrdersOf cfg g) := by
  unfold genCustomersOf genOrdersOf
  cases hg : generate_synthetic_data cfg g with
  | ok p =>
    cases p with
    | mk cs os => rfl
  | error e => rw [hg] at h; exact absurd h (by simp [Except.isOk, Except.toBool])

set_option maxRecDepth 400000

theorem cfgDemo_ok : generate_synthetic_data cfgDemo (0, 0) =
    .ok (genCustomersOf cfgDemo (0, 0), genOrdersOf cfgDemo (0, 0)) :=
  generate_eq_of_isOk cfgDemo (0, 0) (by with_unfolding_all decide)

/-- A default order for `List.getD`. -/
def oDefault : Order :=
  { order_id := "", customer_id := "",
    order_date := { year := 0, month := 0, day := 0 },
    amount := 1, product_category := "", channel := "" }

/-- The first order of the `cfgDemo` run. -/
def oW : Order := (genOrdersOf cfgDemo (0, 0)).getD 0 oDefault

theorem oW_mem : oW ∈ genOrdersOf cfgDemo (0, 0) := by
  have h : 0 < (genOrdersOf cfgDemo (0, 0)).length := by with_unfolding_all decide
  unfold oW
  rw [List.getD_eq_getElem _ _ h]
  exact List.getElem_mem _

/-- A one-row order table used to instantiate the analytics claims. -/
def ordersW : List OrderRow :=
  [{ order_id := "O1", customer_id := "C1", order_date := 5, amount := 10,
     product_category := "cat", channel := "web" }]

/-! ## Claim theorems (part 2) and witnesses -/

/-- C2 counterexample to the claimed round-trip: on a dataset produced by
`generate_synthetic_data`, saving and reloading the customers file does not
return the original rows: `load_data` applies `ast.literal_eval` to
`interests` but not to `pain_points` (reloaded as the literal text `"[]"`
instead of an empty list), and a `None` `lifetime_value` is written as an
empty cell and read back as `NaN`. -/
theorem claim_C2_roundtrip_counterexample :
    (generate_synthetic_data cfgDemo (0, 0)).isOk = true ∧
    load_data_customers (save_data_customers (genCustomersOf cfgDemo (0, 0))) ≠
      .ok ((genCustomersOf cfgDemo (0, 0)).map custToRow) :=
  ⟨by with_unfolding_all decide, by with_unfolding_all decide⟩

/-- C2 (amended): for every dataset produced by `generate_synthetic_data`
under a configuration whose vocabulary strings are non-empty and do not
look numeric (do not start with a digit, `-` or `.`, so CSV re-reading
keeps them as text), persisting with `save_data` and reloading with
`load_data` preserves row order and multiplicity and round-trips every
field -- dates and the `interests` list included, quotes in interests
handled by `repr`'s quote switching -- except `pain_points` (reloaded as
its textual form, not a list) and `lifetime_value` (`None` reloaded as
`NaN`). -/
theorem claim_C2_roundtrip_amended (cfg : Config) (g : ℕ × ℕ)
    (cs : List Customer) (os : List Order)
    (hok : generate_synthetic_data cfg g = .ok (cs, os)) (hsafe : SafeConfig cfg) :
    load_data_orders (save_data_orders os) = .ok (os.map ordToRow) ∧
    load_data_customers (save_data_customers cs) =
      .ok (cs.map (fun c => reloadFix (custToRow c))) :=
  ⟨load_save_orders cfg hsafe os (fun o ho => ((generate_inv cfg g cs os hok).2 o ho).1),
   load_save_customers cfg hsafe cs (generate_inv cfg g cs os hok).1⟩

/-- Witness for the amended C2 on the concrete demonstration run. -/
theorem claim_C2_roundtrip_amended_witness :
    SafeConfig cfgDemo ∧
    (load_data_orders (save_data_orders (genOrdersOf cfgDemo (0, 0))) =
        .ok ((genOrdersOf cfgDemo (0, 0)).map ordToRow) ∧
     load_data_customers (save_data_customers (genCustomersOf cfgDemo (0, 0))) =
        .ok ((genCustomersOf cfgDemo (0, 0)).map (fun c => reloadFix (custToRow c)))) :=
  ⟨by decide, claim_C2_roundtrip_amended cfgDemo (0, 0) _ _ cfgDemo_ok (by decide)⟩

/-- C8 counterexample to fail-fast on zero customers: with
`num_customers = 0` the generator does not fail -- it returns empty (hence
trivially consistent, but not error-flagged) collections. -/
theorem claim_C8_failfast_counterexample :
    cfgZero.numCustomers = 0 ∧
    generate_synthetic_data cfgZero (0, 0) = .ok ([], []) :=
  ⟨rfl, generate_zero_customers cfgZero (0, 0) rfl⟩

/-- C8 (amended): an empty interest pool or an inverted order-count range
makes the generator fail with an error before returning any data (whenever
at least one customer is scheduled, so that a draw is reached), but
`num_customers = 0` is not rejected: the run succeeds with empty
collections. -/
theorem claim_C8_failfast_amended (cfg : Config) (g : ℕ × ℕ) :
    (cfg.numCustomers = 0 → generate_synthetic_data cfg g = .ok ([], [])) ∧
    (∀ counts, adjustedCounts cfg = .ok counts →
      (∃ p ∈ counts, 0 < p.2.toNat) →
      ((cfg.interestPool = [] → ∃ e, generate_synthetic_data cfg g = .error e) ∧
       (cfg.ordersPerCustomerMax < cfg.ordersPerCustomerMin →
         ∃ e, generate_synthetic_data cfg g = .error e))) :=
  ⟨fun hz => generate_zero_customers cfg g hz,
   fun counts hadj hsome =>
     ⟨fun hpool => generate_err_empty_pool cfg g hpool counts hadj hsome,
      fun hmm => generate_err_min_gt_max cfg g hmm counts hadj hsome⟩⟩

/-- Witness for the amended C8: all three malformed configurations, concretely. -/
theorem claim_C8_failfast_amended_witness :
    generate_synthetic_data cfgZero (0, 0) = .ok ([], []) ∧
    (∃ e, generate_synthetic_data cfgNoPool (0, 0) = .error e) ∧
    (∃ e, generate_synthetic_data cfgMinMax (0, 0) = .error e) :=
  ⟨(claim_C8_failfast_amended cfgZero (0, 0)).1 rfl,
   ((claim_C8_failfast_amended cfgNoPool (0, 0)).2 [("returning", 1)]
      (by with_unfolding_all decide) (by decide)).1 rfl,
   ((claim_C8_failfast_amended cfgMinMax (0, 0)).2 [("returning", 1)]
      (by with_unfolding_all decide) (by decide)).2 (by decide)⟩

/-- Witness for C3 on a one-order table. -/
theorem claim_C3_kpi_formulas_witness :
    ordersW.filter (fun r => r.customer_id == "C1") ≠ [] ∧
    ((calculate_customer_kpis "C1" [] ordersW).average_order_value =
      (calculate_customer_kpis "C1" [] ordersW).total_spend /
        ((calculate_customer_kpis "C1" [] ordersW).orders_count : ℚ) ∧
    (calculate_customer_kpis "C1" [] ordersW).days_active =
      listMaxZ ((ordersW.filter (fun r => r.customer_id == "C1")).map
          (fun r => r.order_date)) -
        listMinZ ((ordersW.filter (fun r => r.customer_id == "C1")).map
          (fun r => r.order_date)) + 1 ∧
    (calculate_customer_kpis "C1" [] ordersW).order_frequency =
      (if 0 < ((calculate_customer_kpis "C1" [] ordersW).days_active : ℚ) / 30
       then ((calculate_customer_kpis "C1" [] ordersW).orders_count : ℚ) /
          (((calculate_customer_kpis "C1" [] ordersW).days_active : ℚ) / 30)
       else ((calculate_customer_kpis "C1" [] ordersW).orders_count : ℚ))) :=
  ⟨by with_unfolding_all decide,
   claim_C3_kpi_formulas "C1" [] ordersW (by with_unfolding_all decide)⟩

/-- Witness for C4: a customer id matching no order row. -/
theorem claim_C4_no_orders_sentinel_witness :
    ordersW.filter (fun r => r.customer_id == "absent") = [] ∧
    calculate_customer_kpis "absent" [] ordersW =
      { total_spend := 0, orders_count := 0, average_order_value := 0,
        order_frequency := 0, top_category := "N/A", days_active := 0 } :=
  ⟨by with_unfolding_all decide,
   claim_C4_no_orders_sentinel "absent" [] ordersW (by with_unfolding_all decide)⟩

/-- Witness for C5 on the concrete demonstration run. -/
theorem claim_C5_order_integrity_witness :
    oW ∈ genOrdersOf cfgDemo (0, 0) ∧
    ((∃ c ∈ genCustomersOf cfgDemo (0, 0), c.customer_id = oW.customer_id) ∧
      0 < oW.amount) :=
  ⟨oW_mem, claim_C5_order_integrity cfgDemo (0, 0) _ _ oW cfgDemo_ok oW_mem⟩

/-- Witness for C6 on the concrete demonstration run. -/
theorem claim_C6_segment_counts_witness :
    (∀ p ∈ cfgDemo.segmentDistribution, 0 ≤ p.2) ∧
    (cfgDemo.segmentDistribution.map Prod.snd).sum = 1 ∧
    "returning" ∈ cfgDemo.segmentDistribution.map Prod.fst ∧
    adjustedCounts cfgDemo = .ok [("returning", 1)] ∧
    ((([("returning", (1 : ℤ))] : List (String × ℤ)).map Prod.snd).sum =
        (cfgDemo.numCustomers : ℤ) ∧
      (genCustomersOf cfgDemo (0, 0)).length = cfgDemo.numCustomers) :=
  ⟨by with_unfolding_all decide, by with_unfolding_all decide, by decide,
   by with_unfolding_all decide,
   claim_C6_segment_counts cfgDemo (0, 0) _ _ [("returning", 1)]
     (by with_unfolding_all decide) (by with_unfolding_all decide) (by decide)
     (by with_unfolding_all decide) cfgDemo_ok⟩

/-- Witness for C10 on a one-order table. -/
theorem claim_C10_frequency_fallback_unreachable_witness :
    ordersW.filter (fun r => r.customer_id == "C1") ≠ [] ∧
    (1 ≤ (calculate_customer_kpis "C1" [] ordersW).days_active ∧
     0 < (((calculate_customer_kpis "C1" [] ordersW).days_active : ℚ) / 30) ∧
     (calculate_customer_kpis "C1" [] ordersW).order_frequency =
       ((calculate_customer_kpis "C1" [] ordersW).orders_count : ℚ) * 30 /
         ((calculate_customer_kpis "C1" [] ordersW).days_active : ℚ)) :=
  ⟨by with_unfolding_all decide,
   claim_C10_frequency_fallback_unreachable "C1" [] ordersW
     (by with_unfolding_all decide)⟩

end BIMail
